import Mathlib

/-!
# Verification of the dot2d3 core: AST, graph builder, path validation, parser

Shallow embedding of the dot2d3 repository's core pipeline:

* the AST produced by the parser (`pkg/ast`, reconstructed from its uses),
* the graph builder (`Converter` in the d3 package: `Convert`,
  `processNodeStmt`, `processEdgeStmt`, `ensureNode`, `processSubgraph`,
  `processAttrStmt`, `linkExists`, ...),
* path validation (`ApplyPathHighlighting`, `collectPathEndpoints`),
* the statement-level part of the recursive-descent parser
  (`parseStmt`, `parseStmtList`, `parseSubgraph`, `parseSubgraphOrGroup`,
  `parseEdgeStmt`, `parseAttrList`, ...).

Go `map[string]string` values are modelled as association lists with
insert-or-update semantics (`mapInsert`), which keeps keys unique exactly as a
Go map does; a canonical iteration order (list order) is used where the Go code
ranges over such a map.  Where the claims depend on Go's *unspecified* map
iteration order (the node slice assembled by `Convert`), the outcome is
modelled as any permutation of the stored nodes (`ConvertOutcome`).

Source `Position` fields are diagnostic-only: no function modelled here ever
reads them, so they are omitted from the embedding.
-/

namespace Dot2D3

/-! ## AST (pkg/ast, reconstructed from its uses in parser and converter) -/

/-- `ast.Ident`: a name plus the lexical flags the parser sets.  The converter
only reads `name`. -/
structure Ident where
  name : String
  quoted : Bool := false
  html : Bool := false
deriving DecidableEq, Repr

/-- `ast.Port`: `ID` is a nullable pointer in Go (`parsePort` may leave it
unset), hence `Option`. -/
structure Port where
  id : Option Ident := none
  compass : Option Ident := none
deriving DecidableEq, Repr

/-- `ast.NodeID`: identifier plus optional port. -/
structure NodeID where
  id : Ident
  port : Option Port := none
deriving DecidableEq, Repr

/-- `ast.Attr`: one `key = value` pair. -/
structure Attr where
  key : Ident
  value : Ident
deriving DecidableEq, Repr

/-- `ast.AttrList`: ordered list of attributes (bracket groups flattened, as
`parseAttrList` flattens them). -/
structure AttrList where
  attrs : List Attr
deriving DecidableEq, Repr

/-- `ast.AttrKind`: which defaults an `AttrStmt` updates. -/
inductive AttrKind where
  | graphAttr
  | nodeAttr
  | edgeAttr
deriving DecidableEq, Repr

mutual

/-- `ast.Statement` variants.  `ast.Subgraph` (an id plus a statement list) is
flattened into the constructors that carry one.  An `ast.EdgeRight` is the pair
(directed flag, endpoint); the converter never reads the flag. -/
inductive Stmt where
  | node (nodeID : NodeID) (attrs : Option AttrList) : Stmt
  | edge (left : EdgeEndpoint) (rights : List (Bool × EdgeEndpoint))
      (attrs : Option AttrList) : Stmt
  | attr (kind : AttrKind) (attrs : Option AttrList) : Stmt
  | assign (key value : Ident) : Stmt
  | subgraph (id : Option Ident) (stmts : List Stmt) : Stmt

/-- `ast.EdgeEndpoint`: NodeID, NodeGroup or Subgraph. -/
inductive EdgeEndpoint where
  | node (n : NodeID) : EdgeEndpoint
  | group (nodes : List NodeID) : EdgeEndpoint
  | subgraph (id : Option Ident) (stmts : List Stmt) : EdgeEndpoint

end

/-- `ast.Graph`: strictness, directedness, optional id, statements. -/
structure ASTGraph where
  strict : Bool
  directed : Bool
  id : Option Ident
  statements : List Stmt

/-! ## D3 graph model (d3 package structs, as used by the converter file) -/

/-- `d3.Node`.  Go zero values: empty strings, `false` flags, nil map (here the
empty association list). -/
structure Node where
  ID : String
  Label : String := ""
  Color : String := ""
  FillColor : String := ""
  Shape : String := ""
  Style : String := ""
  Group : String := ""
  Attributes : List (String × String) := []
  OnPath : Bool := false
  PathInvalid : Bool := false
deriving DecidableEq, Repr

/-- `d3.Link`. -/
structure Link where
  Source : String
  Target : String
  Label : String := ""
  Color : String := ""
  Style : String := ""
  Attributes : List (String × String) := []
  OnPath : Bool := false
deriving DecidableEq, Repr

/-- `d3.Subgraph` as the converter file uses it (`processSubgraph` writes
`Label`, `Color` and `Style` from nested assignments). -/
structure SubgraphRec where
  ID : String
  Label : String := ""
  Color : String := ""
  Style : String := ""
  Nodes : List String
deriving DecidableEq, Repr

/-- `d3.Graph`. -/
structure DGraph where
  Nodes : List Node
  Links : List Link
  Directed : Bool
  Strict : Bool
  GraphID : String
  Subgraphs : List SubgraphRec
deriving DecidableEq, Repr

/-- `d3.InvalidEdge`. -/
structure InvalidEdge where
  Source : String
  Target : String
  InvalidNode : String
deriving DecidableEq, Repr

/-- `d3.PathValidationResult`.  `InvalidEdge` is a nullable pointer in Go. -/
structure PathValidationResult where
  Valid : Bool
  Error : String := ""
  InvalidEdge : Option InvalidEdge := none
  LastValidNode : String := ""
deriving DecidableEq, Repr

/-! ## Go map operations on association lists -/

/-- Go `m[k] = v` on a `map[string]string`: update in place if the key exists,
otherwise add the binding.  Keys stay unique. -/
def mapInsert (m : List (String × String)) (k v : String) :
    List (String × String) :=
  if m.any (fun p => p.1 = k) then
    m.map (fun p => if p.1 = k then (k, v) else p)
  else m ++ [(k, v)]

/-- Go `m[k]` read on a `map[string]string`: the zero value `""` when the key
is absent (also when the map is nil). -/
def mapGet (m : List (String × String)) (k : String) : String :=
  ((m.find? (fun p => p.1 = k)).map Prod.snd).getD ""

/-! ## The converter (d3 package, `Converter` / `Convert`)

Converter state.  `nodes` is Go's `map[string]*Node` together with the key
insertion order (Go stores no order; recording it lets the specification speak
about first-creation order).  The Go struct's `currentSubgraph` field is never
written or read anywhere in the source and is omitted. -/
structure Converter where
  nodes : List (String × Node)
  links : List Link
  subgraphs : List SubgraphRec
  directed : Bool
  strict : Bool
  graphID : String
  nodeDefaults : List (String × String)
  edgeDefaults : List (String × String)
deriving DecidableEq, Repr

/-- Look a node up in the converter's node map. -/
def findNode (c : Converter) (id : String) : Option Node :=
  (c.nodes.find? (fun p => p.1 = id)).map Prod.snd

/-- `getOrCreateNode`: insert a fresh node (label defaulting to the id) when
the id is not yet in the map.  (Go also returns the pointer; here the callers
read/update the entry through `findNode`/`updateNode`.) -/
def getOrCreateNode (c : Converter) (id : String) : Converter :=
  if c.nodes.any (fun p => p.1 = id) then c
  else { c with nodes := c.nodes ++ [(id, { ID := id, Label := id })] }

/-- Mutation through the `*Node` pointer held in the map: rewrite the entry for
`id`.  Keys are unique by construction (`getOrCreateNode` never duplicates), so
mapping over all entries updates exactly the pointed-to node. -/
def updateNode (c : Converter) (id : String) (f : Node → Node) : Converter :=
  { c with nodes := c.nodes.map (fun p => if p.1 = id then (p.1, f p.2) else p) }

/-- `applyNodeAttr`: route an attribute to the node field it names, everything
else into the `Attributes` map. -/
def applyNodeAttr (n : Node) (key value : String) : Node :=
  if key = "label" then { n with Label := value }
  else if key = "color" then { n with Color := value }
  else if key = "fillcolor" then { n with FillColor := value }
  else if key = "shape" then { n with Shape := value }
  else if key = "style" then { n with Style := value }
  else { n with Attributes := mapInsert n.Attributes key value }

/-- `applyLinkAttr`. -/
def applyLinkAttr (l : Link) (key value : String) : Link :=
  if key = "label" then { l with Label := value }
  else if key = "color" then { l with Color := value }
  else if key = "style" then { l with Style := value }
  else { l with Attributes := mapInsert l.Attributes key value }

/-- The body of `ensureNode`'s defaults loop: apply one default only if the
target field still holds its unset value (label still the id, strings empty,
attribute key absent or empty). -/
def applyCondDefault (id : String) (n : Node) (k v : String) : Node :=
  if k = "label" then (if n.Label = id then applyNodeAttr n k v else n)
  else if k = "color" then (if n.Color = "" then applyNodeAttr n k v else n)
  else if k = "fillcolor" then (if n.FillColor = "" then applyNodeAttr n k v else n)
  else if k = "shape" then (if n.Shape = "" then applyNodeAttr n k v else n)
  else if k = "style" then (if n.Style = "" then applyNodeAttr n k v else n)
  else (if mapGet n.Attributes k = "" then applyNodeAttr n k v else n)

/-- `processNodeStmt`: get-or-create, apply node defaults (unconditional
overwrite), then the statement's own attributes (unconditional overwrite),
then set the subgraph membership. -/
def processNodeStmt (c : Converter) (nid : NodeID) (attrs : Option AttrList)
    (subgraphID : String) : Converter :=
  let id := nid.id.name
  let c' := getOrCreateNode c id
  updateNode c' id (fun node =>
    let node := c'.nodeDefaults.foldl (fun n kv => applyNodeAttr n kv.1 kv.2) node
    let node := match attrs with
      | none => node
      | some al => al.attrs.foldl (fun n a => applyNodeAttr n a.key.name a.value.name) node
    if subgraphID ≠ "" then { node with Group := subgraphID } else node)

/-- `ensureNode`: get-or-create, apply node defaults conditionally (gap-fill
only), then set the subgraph membership only if none is set yet. -/
def ensureNode (c : Converter) (id : String) (subgraphID : String) : Converter :=
  let c' := getOrCreateNode c id
  updateNode c' id (fun node =>
    let node := c'.nodeDefaults.foldl (fun n kv => applyCondDefault id n kv.1 kv.2) node
    if subgraphID ≠ "" ∧ node.Group = "" then { node with Group := subgraphID } else node)

/-- `processAttrStmt`: fold the attribute list into the matching defaults map;
graph attributes are ignored. -/
def processAttrStmt (c : Converter) (kind : AttrKind) (attrs : Option AttrList) :
    Converter :=
  match attrs with
  | none => c
  | some al =>
    match kind with
    | .nodeAttr =>
      { c with nodeDefaults :=
          al.attrs.foldl (fun m a => mapInsert m a.key.name a.value.name) c.nodeDefaults }
    | .edgeAttr =>
      { c with edgeDefaults :=
          al.attrs.foldl (fun m a => mapInsert m a.key.name a.value.name) c.edgeDefaults }
    | .graphAttr => c

/-- The equivalence `linkExists` checks one stored link against: same
(source, target), or the reversed pair when the graph is undirected. -/
def linkMatches (directed : Bool) (l : Link) (source target : String) : Bool :=
  (l.Source = source ∧ l.Target = target) ∨
    (¬ directed ∧ l.Source = target ∧ l.Target = source)

/-- `linkExists`: an equivalent link is already stored. -/
def linkExists (c : Converter) (source target : String) : Bool :=
  c.links.any (fun l => linkMatches c.directed l source target)

/-- The link built for one (leftID, rightID) pair: edge defaults first, then
the statement's explicit attributes, each unconditionally overwriting. -/
def buildLink (c : Converter) (source target : String) (attrs : Option AttrList) :
    Link :=
  let link : Link := { Source := source, Target := target }
  let link := c.edgeDefaults.foldl (fun l kv => applyLinkAttr l kv.1 kv.2) link
  match attrs with
  | none => link
  | some al => al.attrs.foldl (fun l a => applyLinkAttr l a.key.name a.value.name) link

/-- The append step of `processEdgeStmt`'s inner loop: build the link and drop
it when the graph is strict and an equivalent link already exists. -/
def addLinkChecked (c : Converter) (source target : String)
    (attrs : Option AttrList) : Converter :=
  let link := buildLink c source target attrs
  if c.strict ∧ linkExists c source target then c
  else { c with links := c.links ++ [link] }

/-- The two nested loops of `processEdgeStmt`: one link per (leftID, rightID)
pair, in order. -/
def addLinksAll (c : Converter) (lefts rights : List String)
    (attrs : Option AttrList) : Converter :=
  lefts.foldl (fun c l => rights.foldl (fun c r => addLinkChecked c l r attrs) c) c

/-- The `Subgraph` record `processSubgraph` registers: the touched ids, and
label/color/style pulled from top-level `key = value` assignments in the body
(each later assignment overwriting earlier ones, other keys ignored). -/
def subgraphRecordOf (sgID : String) (stmts : List Stmt)
    (nodeIDs : List String) : SubgraphRec :=
  stmts.foldl (fun sub s =>
    match s with
    | .assign k v =>
      if k.name = "label" then { sub with Label := v.name }
      else if k.name = "color" then { sub with Color := v.name }
      else if k.name = "style" then { sub with Style := v.name }
      else sub
    | _ => sub) { ID := sgID, Nodes := nodeIDs }

mutual

/-- `processStatements`: fold `processStatement` over the list. -/
def processStatements (c : Converter) (stmts : List Stmt) (subgraphID : String) :
    Converter :=
  match stmts with
  | [] => c
  | s :: rest => processStatements (processStatement c s subgraphID) rest subgraphID
termination_by 3 * sizeOf stmts

/-- `processStatement`: dispatch on the statement variant;
`AttrAssign` is ignored at this level. -/
def processStatement (c : Converter) (stmt : Stmt) (subgraphID : String) :
    Converter :=
  match stmt with
  | .node nid attrs => processNodeStmt c nid attrs subgraphID
  | .edge left rights attrs => processEdgeStmt c left rights attrs subgraphID
  | .attr kind attrs => processAttrStmt c kind attrs
  | .assign _ _ => c
  | .subgraph id stmts => processSubgraph c id stmts
termination_by 3 * sizeOf stmt

/-- `processEdgeStmt`: resolve the left endpoint ids, then walk the chain. -/
def processEdgeStmt (c : Converter) (left : EdgeEndpoint)
    (rights : List (Bool × EdgeEndpoint)) (attrs : Option AttrList)
    (subgraphID : String) : Converter :=
  let p := collectEndpoints c left subgraphID
  processEdgeRights p.1 p.2 rights attrs subgraphID
termination_by 3 * (sizeOf left + sizeOf rights) + 1

/-- The chain loop of `processEdgeStmt`: at each step the previous right
endpoint ids become the left ids, one link per pair, the statement's attribute
list applied at every step. -/
def processEdgeRights (c : Converter) (endpoints : List String)
    (rights : List (Bool × EdgeEndpoint)) (attrs : Option AttrList)
    (subgraphID : String) : Converter :=
  match rights with
  | [] => c
  | (_, ep) :: rest =>
    let p := collectEndpoints c ep subgraphID
    let c' := addLinksAll p.1 endpoints p.2 attrs
    processEdgeRights c' p.2 rest attrs subgraphID
termination_by 3 * sizeOf rights

/-- `collectEndpoints`: materialise endpoint nodes (`ensureNode`) and return
their ids; a subgraph endpoint is processed under its *own* id (empty when
anonymous), not the enclosing one. -/
def collectEndpoints (c : Converter) (ep : EdgeEndpoint) (subgraphID : String) :
    Converter × List String :=
  match ep with
  | .node n => (ensureNode c n.id.name subgraphID, [n.id.name])
  | .group nodes =>
    (nodes.foldl (fun c n => ensureNode c n.id.name subgraphID) c,
     nodes.map (fun n => n.id.name))
  | .subgraph id stmts =>
    let sgID := (id.map Ident.name).getD ""
    processSubgraphNodes c stmts sgID
termination_by 3 * sizeOf ep

/-- The `Rights` loop shared by `processSubgraphNodes` and `processSubgraph`:
collect the ids of every right endpoint in order. -/
def collectEndpointsRights (c : Converter) (rights : List (Bool × EdgeEndpoint))
    (subgraphID : String) : Converter × List String :=
  match rights with
  | [] => (c, [])
  | (_, ep) :: rest =>
    let p := collectEndpoints c ep subgraphID
    let q := collectEndpointsRights p.1 rest subgraphID
    (q.1, p.2 ++ q.2)
termination_by 3 * sizeOf rights

/-- `processSubgraphNodes`: process a subgraph used as an edge endpoint and
collect every node id inside it (node statements, edge endpoints, nested
subgraphs — the nested case keeps the same subgraph id). -/
def processSubgraphNodes (c : Converter) (stmts : List Stmt) (subgraphID : String) :
    Converter × List String :=
  match stmts with
  | [] => (c, [])
  | s :: rest =>
    let p := processSubgraphNodeStmt c s subgraphID
    let q := processSubgraphNodes p.1 rest subgraphID
    (q.1, p.2 ++ q.2)
termination_by 3 * sizeOf stmts

/-- The per-statement work of `processSubgraphNodes`. -/
def processSubgraphNodeStmt (c : Converter) (s : Stmt) (subgraphID : String) :
    Converter × List String :=
  match s with
  | .node nid _ => (ensureNode c nid.id.name subgraphID, [nid.id.name])
  | .edge left rights attrs =>
    let c1 := processEdgeStmt c left rights attrs subgraphID
    let p1 := collectEndpoints c1 left subgraphID
    let p2 := collectEndpointsRights p1.1 rights subgraphID
    (p2.1, p1.2 ++ p2.2)
  | .subgraph _ stmts2 => processSubgraphNodes c stmts2 subgraphID
  | _ => (c, [])
termination_by 3 * sizeOf s

/-- `processSubgraph`: process the statements under the subgraph's id,
collect the ids they touch, and (when the subgraph has an identifier) register
a `Subgraph` record (built by `subgraphRecordOf`). -/
def processSubgraph (c : Converter) (id : Option Ident) (stmts : List Stmt) :
    Converter :=
  let sgID := (id.map Ident.name).getD ""
  let p := processSubgraphCollect c stmts sgID
  if sgID ≠ "" then
    { p.1 with subgraphs := p.1.subgraphs ++ [subgraphRecordOf sgID stmts p.2] }
  else p.1
termination_by 3 * sizeOf stmts + 2

/-- The statement loop of `processSubgraph`. -/
def processSubgraphCollect (c : Converter) (stmts : List Stmt) (sgID : String) :
    Converter × List String :=
  match stmts with
  | [] => (c, [])
  | s :: rest =>
    let p := processSubgraphCollectStmt c s sgID
    let q := processSubgraphCollect p.1 rest sgID
    (q.1, p.2 ++ q.2)
termination_by 3 * sizeOf stmts + 1

/-- One step of `processSubgraph`'s loop: process the statement, then collect
the node ids it contributes (node statements directly, edge statements through
a second `collectEndpoints` pass, exactly as the source does). -/
def processSubgraphCollectStmt (c : Converter) (s : Stmt) (sgID : String) :
    Converter × List String :=
  let c1 := processStatement c s sgID
  match s with
  | .node nid _ => (c1, [nid.id.name])
  | .edge left rights _ =>
    let p1 := collectEndpoints c1 left sgID
    let p2 := collectEndpointsRights p1.1 rights sgID
    (p2.1, p1.2 ++ p2.2)
  | _ => (c1, [])
termination_by 3 * sizeOf s + 1

end

/-- `Convert`, up to assembling the final struct: initialise the converter from
the AST graph header and process all statements at top level. -/
def runConvert (g : ASTGraph) : Converter :=
  let c : Converter :=
    { nodes := [], links := [], subgraphs := [], directed := g.directed,
      strict := g.strict, graphID := (g.id.map Ident.name).getD "",
      nodeDefaults := [], edgeDefaults := [] }
  processStatements c g.statements ""

/-- The stored nodes in first-creation order. -/
def convertNodes (c : Converter) : List Node := c.nodes.map Prod.snd

/-- The observable outcomes of `Convert`: the final node slice is assembled by
ranging over the Go map `c.nodes`, whose iteration order is unspecified, so any
permutation of the stored nodes is an admissible result; every other field is
deterministic. -/
def ConvertOutcome (g : ASTGraph) (out : DGraph) : Prop :=
  out.Nodes.Perm (convertNodes (runConvert g)) ∧
  out.Links = (runConvert g).links ∧
  out.Directed = (runConvert g).directed ∧
  out.Strict = (runConvert g).strict ∧
  out.GraphID = (runConvert g).graphID ∧
  out.Subgraphs = (runConvert g).subgraphs

/-- The canonical admissible `Convert` output: the node slice in map insertion
order (one of the permutations the Go map range may produce). -/
def convertCanonical (g : ASTGraph) : DGraph :=
  { Nodes := convertNodes (runConvert g), Links := (runConvert g).links,
    Directed := (runConvert g).directed, Strict := (runConvert g).strict,
    GraphID := (runConvert g).graphID, Subgraphs := (runConvert g).subgraphs }

/-! ## Path validation (`ApplyPathHighlighting`, `collectPathEndpoints`)

The Go function builds `nodeMap` (id → `*Node`, later duplicates overwriting)
once up front and mutates nodes/links through the stored pointers.  Flag
mutations never change any `ID`/`Source`/`Target`, so looking the index up
again at each step (as the model does) reads and writes exactly the same
entries. -/

mutual

/-- `collectPathEndpoints`: node ids of an endpoint, without creating
anything.  A subgraph endpoint contributes its node statements and the
endpoints of its edge statements (nested subgraph *statements* are not
descended into — only endpoints recurse). -/
def collectPathEndpoints (ep : EdgeEndpoint) : List String :=
  match ep with
  | .node n => [n.id.name]
  | .group nodes => nodes.map (fun n => n.id.name)
  | .subgraph _ stmts => collectPathEndpointsStmts stmts
termination_by 2 * sizeOf ep

/-- The statement loop of `collectPathEndpoints`'s subgraph case. -/
def collectPathEndpointsStmts (stmts : List Stmt) : List String :=
  match stmts with
  | [] => []
  | s :: rest =>
    (match s with
     | .node nid _ => [nid.id.name]
     | .edge left rights _ =>
       collectPathEndpoints left ++ collectPathEndpointsRights rights
     | _ => []) ++ collectPathEndpointsStmts rest
termination_by 2 * sizeOf stmts

/-- The `Rights` loop of `collectPathEndpoints`'s subgraph case. -/
def collectPathEndpointsRights (rights : List (Bool × EdgeEndpoint)) :
    List String :=
  match rights with
  | [] => []
  | (_, ep) :: rest => collectPathEndpoints ep ++ collectPathEndpointsRights rest
termination_by 2 * sizeOf rights

end

/-- Mutate the node at index `i` (no-op when out of range, which never happens
for indices produced by `nodeMapIdx`). -/
def modifyNodeAt (nodes : List Node) (i : Nat) (f : Node → Node) : List Node :=
  match nodes.get? i with
  | some n => nodes.set i (f n)
  | none => nodes

/-- Mutate the link at index `i`. -/
def modifyLinkAt (links : List Link) (i : Nat) (f : Link → Link) : List Link :=
  match links.get? i with
  | some l => links.set i (f l)
  | none => links

/-- The `nodeMap` lookup: index of the node a Go `map[string]*Node` built over
the slice holds for `id` — the *last* slice entry with that id, since later
inserts overwrite earlier ones.  `none` when the id is absent. -/
def nodeMapIdx (nodes : List Node) (id : String) : Option Nat :=
  (nodes.foldl
    (fun (p : Nat × Option Nat) n =>
      (p.1 + 1, if n.ID = id then some p.1 else p.2))
    (0, none)).2

/-- The `findLink` closure: the first link with the given (source, target), a
reversed match also counting when the graph is undirected (the same
equivalence `linkExists` uses). -/
def findLinkIdx (g : DGraph) (source target : String) : Option Nat :=
  g.Links.findIdx? (fun l => linkMatches g.Directed l source target)

/-- The Go error message for an unknown node in a path edge. -/
def unknownNodeMsg (leftID rightID bad : String) : String :=
  "edge '" ++ leftID ++ " -> " ++ rightID ++ "' references unknown node '" ++
    bad ++ "'"

/-- The body of the innermost validation loop, for one (leftID, rightID) pair:
`some result` means the Go function returns that failure immediately;
`none` means validation of the pair succeeded (flags set as a side effect). -/
def checkPair (g : DGraph) (leftID rightID : String) :
    DGraph × Option PathValidationResult :=
  match nodeMapIdx g.Nodes leftID, nodeMapIdx g.Nodes rightID with
  | none, none =>
    (g, some { Valid := false, Error := unknownNodeMsg leftID rightID leftID,
               InvalidEdge := some ⟨leftID, rightID, leftID⟩ })
  | none, some ri =>
    ({ g with Nodes := modifyNodeAt g.Nodes ri (fun n => { n with PathInvalid := true }) },
     some { Valid := false, Error := unknownNodeMsg leftID rightID leftID,
            InvalidEdge := some ⟨leftID, rightID, leftID⟩,
            LastValidNode := rightID })
  | some li, none =>
    ({ g with Nodes := modifyNodeAt g.Nodes li (fun n => { n with PathInvalid := true }) },
     some { Valid := false, Error := unknownNodeMsg leftID rightID rightID,
            InvalidEdge := some ⟨leftID, rightID, rightID⟩,
            LastValidNode := leftID })
  | some li, some ri =>
    let nodes := modifyNodeAt g.Nodes li (fun n => { n with OnPath := true })
    let nodes := modifyNodeAt nodes ri (fun n => { n with OnPath := true })
    let g' := { g with Nodes := nodes }
    let g' :=
      match findLinkIdx g' leftID rightID with
      | some k =>
        { g' with Links := modifyLinkAt g'.Links k (fun l => { l with OnPath := true }) }
      | none => g'
    (g', none)

/-- Inner loop over the right ids, for one left id. -/
def checkPairsRight (g : DGraph) (leftID : String) (rightNodes : List String) :
    DGraph × Option PathValidationResult :=
  match rightNodes with
  | [] => (g, none)
  | r :: rest =>
    match checkPair g leftID r with
    | (g', some res) => (g', some res)
    | (g', none) => checkPairsRight g' leftID rest

/-- Loop over all (leftID, rightID) combinations, failing at the first bad
pair. -/
def checkPairs (g : DGraph) (leftNodes rightNodes : List String) :
    DGraph × Option PathValidationResult :=
  match leftNodes with
  | [] => (g, none)
  | l :: rest =>
    match checkPairsRight g l rightNodes with
    | (g', some res) => (g', some res)
    | (g', none) => checkPairs g' rest rightNodes

/-- The chain loop: the right ids of each step become the left ids of the
next. -/
def checkChain (g : DGraph) (leftNodes : List String)
    (rights : List (Bool × EdgeEndpoint)) :
    DGraph × Option PathValidationResult :=
  match rights with
  | [] => (g, none)
  | (_, ep) :: rest =>
    let rightNodes := collectPathEndpoints ep
    match checkPairs g leftNodes rightNodes with
    | (g', some res) => (g', some res)
    | (g', none) => checkChain g' rightNodes rest

/-- The statement loop of `ApplyPathHighlighting`: non-edge statements in the
path are skipped. -/
def checkPathStmts (g : DGraph) (stmts : List Stmt) :
    DGraph × Option PathValidationResult :=
  match stmts with
  | [] => (g, none)
  | s :: rest =>
    match s with
    | .edge left rights _ =>
      (match checkChain g (collectPathEndpoints left) rights with
       | (g', some res) => (g', some res)
       | (g', none) => checkPathStmts g' rest)
    | _ => checkPathStmts g rest

/-- `ApplyPathHighlighting`: validate the path AST's edges against the built
graph, mutating flags in place; the first failing pair produces the failure
result, otherwise a success result. -/
def ApplyPathHighlighting (g : DGraph) (path : ASTGraph) :
    DGraph × PathValidationResult :=
  match checkPathStmts g path.statements with
  | (g', some res) => (g', res)
  | (g', none) => (g', { Valid := true })

/-! ## Parser (pkg/parser), statement level

The token stream.  The Go parser holds a current and a peek token fed by the
lexer; the peek token is only ever used to refill the current one, so the state
is equivalent to the list of tokens not yet consumed, the current token being
the head and `eof` standing for an exhausted stream (the lexer keeps returning
`EOF` forever).  Only the literal-bearing kinds carry their literal; `Position`
values are diagnostic-only and omitted.  Parser errors are accumulated;
their message text (Go builds it with `fmt`) is abbreviated here — no claim
inspects it. -/
inductive Tok where
  | identT (lit : String)
  | stringT (lit : String)
  | htmlT (lit : String)
  | graphT
  | digraphT
  | strictT
  | subgraphT
  | nodeT
  | edgeT
  | lbrace
  | rbrace
  | lbracket
  | rbracket
  | semicolon
  | comma
  | colon
  | equal
  | arrow
  | dashdash
  | eof
  | illegal
deriving DecidableEq, Repr

/-- Parser state: remaining tokens and accumulated errors. -/
structure PSt where
  toks : List Tok
  errs : List String
deriving DecidableEq, Repr

/-- `p.tok`: the current token (`eof` once the stream is exhausted). -/
def curTok (σ : PSt) : Tok := σ.toks.headD .eof

/-- `p.next()`. -/
def pnext (σ : PSt) : PSt := { σ with toks := σ.toks.tail }

/-- `p.error(...)`. -/
def perr (σ : PSt) (msg : String) : PSt := { σ with errs := σ.errs ++ [msg] }

/-- `p.expect(tok)`: record an error unless the current token matches, then
advance regardless. -/
def expectTok (σ : PSt) (t : Tok) : PSt :=
  pnext (if curTok σ = t then σ else perr σ "unexpected token")

/-- `p.isID()`: identifier, quoted string or HTML string. -/
def isID (σ : PSt) : Bool :=
  match curTok σ with
  | .identT _ | .stringT _ | .htmlT _ => true
  | _ => false

theorem pnext_toks_le (σ : PSt) : (pnext σ).toks.length ≤ σ.toks.length := by
  cases h : σ.toks <;> simp [pnext, h]

theorem pnext_toks_lt (σ : PSt) (h : σ.toks ≠ []) :
    (pnext σ).toks.length < σ.toks.length := by
  cases hh : σ.toks with
  | nil => exact absurd hh h
  | cons a l => simp [pnext, hh]

theorem perr_toks (σ : PSt) (m : String) : (perr σ m).toks = σ.toks := rfl

theorem expectTok_toks_le (σ : PSt) (t : Tok) :
    (expectTok σ t).toks.length ≤ σ.toks.length := by
  unfold expectTok
  split <;> simpa [perr_toks] using pnext_toks_le _

theorem expectTok_toks_lt (σ : PSt) (t : Tok) (h : σ.toks ≠ []) :
    (expectTok σ t).toks.length < σ.toks.length := by
  unfold expectTok
  split
  · exact pnext_toks_lt _ h
  · exact pnext_toks_lt _ h

theorem curTok_ne_eof_ne_nil {σ : PSt} (h : curTok σ ≠ .eof) : σ.toks ≠ [] := by
  intro hnil
  simp [curTok, hnil] at h

theorem isID_ne_nil {σ : PSt} (h : isID σ = true) : σ.toks ≠ [] := by
  intro hnil
  simp [isID, curTok, hnil] at h

/-- `parseIdent`: produce an `Ident` from the current token (empty name plus an
error otherwise) and advance. -/
def parseIdent (σ : PSt) : Ident × PSt :=
  match curTok σ with
  | .identT s => (⟨s, false, false⟩, pnext σ)
  | .stringT s => (⟨s, true, false⟩, pnext σ)
  | .htmlT s => (⟨s, false, true⟩, pnext σ)
  | _ => (⟨"", false, false⟩, pnext (perr σ "expected identifier"))

theorem parseIdent_toks_le (σ : PSt) :
    (parseIdent σ).2.toks.length ≤ σ.toks.length := by
  unfold parseIdent
  split <;> simpa [perr_toks, pnext, perr] using pnext_toks_le σ

theorem parseIdent_toks_lt (σ : PSt) (h : σ.toks ≠ []) :
    (parseIdent σ).2.toks.length < σ.toks.length := by
  unfold parseIdent
  split <;> simpa [pnext, perr] using pnext_toks_lt σ h

/-- `parsePort`: `':' [ID] [':' [ID]]`. -/
def parsePort (σ : PSt) : Port × PSt :=
  let σ1 := expectTok σ .colon
  let p :=
    if isID σ1 then
      let q := parseIdent σ1
      ((some q.1 : Option Ident), q.2)
    else (none, σ1)
  let r :=
    if curTok p.2 = .colon then
      let σ2 := pnext p.2
      if isID σ2 then
        let q := parseIdent σ2
        ((some q.1 : Option Ident), q.2)
      else (none, σ2)
    else (none, p.2)
  (⟨p.1, r.1⟩, r.2)

theorem parsePort_toks_le (σ : PSt) :
    (parsePort σ).2.toks.length ≤ σ.toks.length := by
  unfold parsePort
  dsimp only
  have h1 := expectTok_toks_le σ .colon
  have h2 := parseIdent_toks_le (expectTok σ .colon)
  have h3 := pnext_toks_le (parseIdent (expectTok σ .colon)).2
  have h4 := parseIdent_toks_le (pnext (parseIdent (expectTok σ .colon)).2)
  have h5 := pnext_toks_le (expectTok σ .colon)
  have h6 := parseIdent_toks_le (pnext (expectTok σ .colon))
  split_ifs <;> (try dsimp only) <;> omega

/-- `parseNodeID`: `ID [port]`. -/
def parseNodeID (σ : PSt) : NodeID × PSt :=
  let p := parseIdent σ
  if curTok p.2 = .colon then
    let q := parsePort p.2
    (⟨p.1, some q.1⟩, q.2)
  else (⟨p.1, none⟩, p.2)

theorem parseNodeID_toks_le (σ : PSt) :
    (parseNodeID σ).2.toks.length ≤ σ.toks.length := by
  unfold parseNodeID
  dsimp only
  have h1 := parseIdent_toks_le σ
  have h2 := parsePort_toks_le (parseIdent σ).2
  split_ifs <;> (try dsimp only) <;> omega

theorem parseNodeID_toks_lt (σ : PSt) (h : σ.toks ≠ []) :
    (parseNodeID σ).2.toks.length < σ.toks.length := by
  unfold parseNodeID
  dsimp only
  have h1 := parseIdent_toks_lt σ h
  have h2 := parsePort_toks_le (parseIdent σ).2
  split_ifs <;> (try dsimp only) <;> omega

/-- The `for p.isID()` loop of `parseSubgraphOrGroup`, collecting bare
NodeIDs.  (`parseNodeID` always consumes when the current token is an ID, so
the guarded recursion always descends; the unreachable guard-failure branch
returns the state unchanged.) -/
def parseNodeIDList (σ : PSt) (acc : List NodeID) : List NodeID × PSt :=
  if hid : isID σ = true then
    let p := parseNodeID σ
    if h : p.2.toks.length < σ.toks.length then
      parseNodeIDList p.2 (acc ++ [p.1])
    else (acc ++ [p.1], p.2)
  else (acc, σ)
termination_by σ.toks.length

theorem parseNodeIDList_toks_le (σ : PSt) (acc : List NodeID) :
    (parseNodeIDList σ acc).2.toks.length ≤ σ.toks.length := by
  unfold parseNodeIDList
  dsimp only
  split
  · rename_i hid
    have h1 := parseNodeID_toks_le σ
    split
    · rename_i hlt
      have h2 := parseNodeIDList_toks_le (parseNodeID σ).2 (acc ++ [(parseNodeID σ).1])
      (try dsimp only)
      omega
    · (try dsimp only)
      omega
  · (try dsimp only)
    omega
termination_by σ.toks.length

/-- One item of an attribute list: `ID ['=' ID] [';'|',']`; a missing value
after `=` records an error and substitutes the empty name, an absent `= value`
yields the literal value `true`. -/
def parseAItem (σ : PSt) : Attr × PSt :=
  let pk := parseIdent σ
  let pv :=
    if curTok pk.2 = .equal then
      let σ1 := pnext pk.2
      if isID σ1 then parseIdent σ1
      else ((⟨"", false, false⟩ : Ident), perr σ1 "expected value after equal")
    else ((⟨"true", false, false⟩ : Ident), pk.2)
  let σ2 :=
    if curTok pv.2 = .semicolon ∨ curTok pv.2 = .comma then pnext pv.2 else pv.2
  (⟨pk.1, pv.1⟩, σ2)

theorem parseAItem_toks_le (σ : PSt) :
    (parseAItem σ).2.toks.length ≤ σ.toks.length := by
  unfold parseAItem
  dsimp only
  have h1 := parseIdent_toks_le σ
  have h2 := pnext_toks_le (parseIdent σ).2
  have h3 := parseIdent_toks_le (pnext (parseIdent σ).2)
  have h4 := pnext_toks_le (parseIdent (pnext (parseIdent σ).2)).2
  have h5 : (perr (pnext (parseIdent σ).2) "expected value after equal").toks.length
      = (pnext (parseIdent σ).2).toks.length := by rw [perr_toks]
  have h6 := pnext_toks_le (perr (pnext (parseIdent σ).2) "expected value after equal")
  split_ifs <;> (try dsimp only) <;> omega

theorem parseAItem_toks_lt (σ : PSt) (h : σ.toks ≠ []) :
    (parseAItem σ).2.toks.length < σ.toks.length := by
  unfold parseAItem
  dsimp only
  have h1 := parseIdent_toks_lt σ h
  have h2 := pnext_toks_le (parseIdent σ).2
  have h3 := parseIdent_toks_le (pnext (parseIdent σ).2)
  have h4 := pnext_toks_le (parseIdent (pnext (parseIdent σ).2)).2
  have h5 : (perr (pnext (parseIdent σ).2) "expected value after equal").toks.length
      = (pnext (parseIdent σ).2).toks.length := by rw [perr_toks]
  have h6 := pnext_toks_le (perr (pnext (parseIdent σ).2) "expected value after equal")
  split_ifs <;> (try dsimp only) <;> omega

/-- The inner `for p.isID()` loop of `parseAttrList`. -/
def parseAListItems (σ : PSt) (acc : List Attr) : List Attr × PSt :=
  if hid : isID σ = true then
    let p := parseAItem σ
    if h : p.2.toks.length < σ.toks.length then
      parseAListItems p.2 (acc ++ [p.1])
    else (acc ++ [p.1], p.2)
  else (acc, σ)
termination_by σ.toks.length

theorem parseAListItems_toks_le (σ : PSt) (acc : List Attr) :
    (parseAListItems σ acc).2.toks.length ≤ σ.toks.length := by
  unfold parseAListItems
  dsimp only
  split
  · rename_i hid
    have h1 := parseAItem_toks_le σ
    split
    · rename_i hlt
      have h2 := parseAListItems_toks_le (parseAItem σ).2 (acc ++ [(parseAItem σ).1])
      (try dsimp only)
      omega
    · (try dsimp only)
      omega
  · (try dsimp only)
    omega
termination_by σ.toks.length

/-- The outer `for p.tok == LBRACKET` loop of `parseAttrList`. -/
def parseAttrListLoop (σ : PSt) (acc : List Attr) : List Attr × PSt :=
  if hlb : curTok σ = .lbracket then
    let σ1 := pnext σ
    let p := parseAListItems σ1 []
    let σ2 := expectTok p.2 .rbracket
    if h : σ2.toks.length < σ.toks.length then
      parseAttrListLoop σ2 (acc ++ p.1)
    else (acc ++ p.1, σ2)
  else (acc, σ)
termination_by σ.toks.length

theorem parseAttrListLoop_toks_le (σ : PSt) (acc : List Attr) :
    (parseAttrListLoop σ acc).2.toks.length ≤ σ.toks.length := by
  unfold parseAttrListLoop
  dsimp only
  have h3 := pnext_toks_le σ
  have h4 := parseAListItems_toks_le (pnext σ) []
  have h5 := expectTok_toks_le (parseAListItems (pnext σ) []).2 .rbracket
  split
  · rename_i hlb
    split
    · rename_i hlt
      have h2 := parseAttrListLoop_toks_le
        (expectTok (parseAListItems (pnext σ) []).2 .rbracket)
        (acc ++ (parseAListItems (pnext σ) []).1)
      (try dsimp only)
      omega
    · (try dsimp only)
      omega
  · (try dsimp only)
    omega
termination_by σ.toks.length

/-- `parseAttrList`: one or more bracket groups, flattened. -/
def parseAttrList (σ : PSt) : AttrList × PSt :=
  let p := parseAttrListLoop σ []
  (⟨p.1⟩, p.2)

theorem parseAttrList_toks_le (σ : PSt) :
    (parseAttrList σ).2.toks.length ≤ σ.toks.length :=
  parseAttrListLoop_toks_le σ []

/-- `parseAttrStmt`: consume the `graph`/`node`/`edge` keyword, then an
optional attribute list. -/
def parseAttrStmt (σ : PSt) (kind : AttrKind) : Stmt × PSt :=
  let σ1 := pnext σ
  if curTok σ1 = .lbracket then
    let p := parseAttrList σ1
    (.attr kind (some p.1), p.2)
  else (.attr kind none, σ1)

theorem parseAttrStmt_toks_le (σ : PSt) (kind : AttrKind) :
    (parseAttrStmt σ kind).2.toks.length ≤ σ.toks.length := by
  unfold parseAttrStmt
  dsimp only
  have h1 := pnext_toks_le σ
  have h2 := parseAttrList_toks_le (pnext σ)
  split_ifs <;> (try dsimp only) <;> omega

theorem parseAttrStmt_toks_lt (σ : PSt) (kind : AttrKind) (h : σ.toks ≠ []) :
    (parseAttrStmt σ kind).2.toks.length < σ.toks.length := by
  unfold parseAttrStmt
  dsimp only
  have h1 := pnext_toks_lt σ h
  have h2 := parseAttrList_toks_le (pnext σ)
  split_ifs <;> (try dsimp only) <;> omega

/-- Result of a statement-cluster parser: parsed value and new state, with the
proof that the parser never lengthens the stream (needed for termination of the
mutually recursive cluster). -/
def PRes (σ : PSt) (α : Type) :=
  {p : α × PSt // p.2.toks.length ≤ σ.toks.length}

/-- Like `PRes`, additionally recording that the parser consumes at least one
token whenever the stream is nonempty. -/
def PResC (σ : PSt) (α : Type) :=
  {p : α × PSt // p.2.toks.length ≤ σ.toks.length ∧
    (σ.toks ≠ [] → p.2.toks.length < σ.toks.length)}

theorem lexLeft {a b : Nat} (r s : Nat) (h : a < b) :
    Prod.Lex (· < ·) (· < ·) (a, r) (b, s) := Prod.Lex.left _ _ h

theorem lexRight {a b r s : Nat} (hab : a ≤ b) (hrs : r < s) :
    Prod.Lex (· < ·) (· < ·) (a, r) (b, s) := by
  rcases lt_or_eq_of_le hab with h | h
  · exact Prod.Lex.left _ _ h
  · subst h; exact Prod.Lex.right _ hrs

mutual

/-- `parseStmtList`: statements until `}` or end of input; a `nil` statement
(error recovery) is skipped, an optional `;` after each statement is
consumed. -/
def parseStmtList (σ : PSt) : PRes σ (List Stmt) :=
  if hguard : curTok σ = .rbrace ∨ curTok σ = .eof then ⟨([], σ), le_refl _⟩
  else
    have hne : σ.toks ≠ [] := curTok_ne_eof_ne_nil (fun he => hguard (Or.inr he))
    let ps := parseStmt σ
    let σ1 := if curTok ps.val.2 = .semicolon then pnext ps.val.2 else ps.val.2
    have h1 : σ1.toks.length < σ.toks.length := by
      have ha := ps.property.1
      have hb := ps.property.2 hne
      have hc := pnext_toks_le ps.val.2
      dsimp only [σ1]
      split <;> omega
    let rest := parseStmtList σ1
    ⟨((match ps.val.1 with
       | some s => s :: rest.val.1
       | none => rest.val.1), rest.val.2), by
      have hr := rest.property
      dsimp only
      omega⟩
termination_by (σ.toks.length, 9)
decreasing_by
all_goals simp_wf
all_goals first
  | exact lexLeft _ _ h1
  | exact lexLeft _ _ hrec
  | exact lexLeft _ _ (lt_of_le_of_lt h2 h1)
  | exact lexRight h1 (by omega)
  | exact lexRight (le_trans hpp hid) (by omega)
  | exact lexRight (le_refl _) (by omega)

/-- `parseStmt`: dispatch on the current token.  A `{`/`subgraph` statement
that is followed by an edge operator becomes the left endpoint of an edge
statement. -/
def parseStmt (σ : PSt) : PResC σ (Option Stmt) :=
  match hcur : curTok σ with
  | .graphT =>
    let p := parseAttrStmt σ .graphAttr
    ⟨(some p.1, p.2),
     ⟨parseAttrStmt_toks_le σ _, fun hne => parseAttrStmt_toks_lt σ _ hne⟩⟩
  | .nodeT =>
    let p := parseAttrStmt σ .nodeAttr
    ⟨(some p.1, p.2),
     ⟨parseAttrStmt_toks_le σ _, fun hne => parseAttrStmt_toks_lt σ _ hne⟩⟩
  | .edgeT =>
    let p := parseAttrStmt σ .edgeAttr
    ⟨(some p.1, p.2),
     ⟨parseAttrStmt_toks_le σ _, fun hne => parseAttrStmt_toks_lt σ _ hne⟩⟩
  | .subgraphT =>
    let ps := parseSubgraph σ
    have h1 : ps.val.2.toks.length ≤ σ.toks.length := ps.property.1
    have h2 : σ.toks ≠ [] → ps.val.2.toks.length < σ.toks.length := ps.property.2
    if harrow : curTok ps.val.2 = .arrow ∨ curTok ps.val.2 = .dashdash then
      let pe := parseEdgeStmt ps.val.2 (.subgraph ps.val.1.1 ps.val.1.2)
      have h3 : pe.val.2.toks.length ≤ ps.val.2.toks.length := pe.property
      ⟨(some pe.val.1, pe.val.2), by
        exact ⟨by dsimp only; omega, fun hne => by have := h2 hne; dsimp only; omega⟩⟩
    else
      ⟨(some (.subgraph ps.val.1.1 ps.val.1.2), ps.val.2), ps.property⟩
  | .lbrace =>
    let ps := parseSubgraph σ
    have h1 : ps.val.2.toks.length ≤ σ.toks.length := ps.property.1
    have h2 : σ.toks ≠ [] → ps.val.2.toks.length < σ.toks.length := ps.property.2
    if harrow : curTok ps.val.2 = .arrow ∨ curTok ps.val.2 = .dashdash then
      let pe := parseEdgeStmt ps.val.2 (.subgraph ps.val.1.1 ps.val.1.2)
      have h3 : pe.val.2.toks.length ≤ ps.val.2.toks.length := pe.property
      ⟨(some pe.val.1, pe.val.2), by
        exact ⟨by dsimp only; omega, fun hne => by have := h2 hne; dsimp only; omega⟩⟩
    else
      ⟨(some (.subgraph ps.val.1.1 ps.val.1.2), ps.val.2), ps.property⟩
  | .identT _ => parseIDStmt σ
  | .stringT _ => parseIDStmt σ
  | .htmlT _ => parseIDStmt σ
  | _ =>
    ⟨(none, pnext (perr σ "unexpected token in statement")), by
      constructor
      · have := pnext_toks_le (perr σ "unexpected token in statement")
        simpa [perr_toks] using this
      · intro hne
        have : (perr σ "unexpected token in statement").toks ≠ [] := by
          simpa [perr_toks] using hne
        have := pnext_toks_lt _ this
        simpa [perr_toks] using this⟩
termination_by (σ.toks.length, 8)
decreasing_by
all_goals simp_wf
all_goals first
  | exact lexLeft _ _ h1
  | exact lexLeft _ _ hrec
  | exact lexLeft _ _ (lt_of_le_of_lt h2 h1)
  | exact lexRight h1 (by omega)
  | exact lexRight (le_trans hpp hid) (by omega)
  | exact lexRight (le_refl _) (by omega)

/-- `parseIDStmt`: `ID '=' ID` (AttrAssign, `nil` plus an error when the value
is missing), or a NodeID (optional port) followed by an edge chain, or a node
statement with an optional attribute list. -/
def parseIDStmt (σ : PSt) : PResC σ (Option Stmt) :=
  let pid := parseIdent σ
  have hid : pid.2.toks.length ≤ σ.toks.length := parseIdent_toks_le σ
  have hid' : σ.toks ≠ [] → pid.2.toks.length < σ.toks.length :=
    fun hne => parseIdent_toks_lt σ hne
  if heq : curTok pid.2 = .equal then
    let σ1 := pnext pid.2
    have h1 : σ1.toks.length ≤ pid.2.toks.length := pnext_toks_le pid.2
    if hval : isID σ1 then
      let pv := parseIdent σ1
      have h2 : pv.2.toks.length ≤ σ1.toks.length := parseIdent_toks_le σ1
      ⟨(some (.assign pid.1 pv.1), pv.2), by
        exact ⟨by dsimp only; omega, fun hne => by have := hid' hne; dsimp only; omega⟩⟩
    else
      ⟨(none, perr σ1 "expected identifier after equals"), by
        constructor
        · simp only [perr_toks]; omega
        · intro hne
          have := hid' hne
          simp only [perr_toks]; omega⟩
  else
    let pp :=
      if hcol : curTok pid.2 = .colon then
        let q := parsePort pid.2
        ((some q.1 : Option Port), q.2)
      else (none, pid.2)
    have hpp : pp.2.toks.length ≤ pid.2.toks.length := by
      dsimp only [pp]
      split
      · exact parsePort_toks_le pid.2
      · exact le_refl _
    let nodeID : NodeID := ⟨pid.1, pp.1⟩
    if harrow : curTok pp.2 = .arrow ∨ curTok pp.2 = .dashdash then
      let pe := parseEdgeStmt pp.2 (.node nodeID)
      have h3 : pe.val.2.toks.length ≤ pp.2.toks.length := pe.property
      ⟨(some pe.val.1, pe.val.2), by
        exact ⟨by dsimp only; omega, fun hne => by have := hid' hne; dsimp only; omega⟩⟩
    else if hlb : curTok pp.2 = .lbracket then
      let pa := parseAttrList pp.2
      have h4 : pa.2.toks.length ≤ pp.2.toks.length := parseAttrList_toks_le pp.2
      ⟨(some (.node nodeID (some pa.1)), pa.2), by
        exact ⟨by dsimp only; omega, fun hne => by have := hid' hne; dsimp only; omega⟩⟩
    else
      ⟨(some (.node nodeID none), pp.2), by
        exact ⟨by dsimp only; omega, fun hne => by have := hid' hne; dsimp only; omega⟩⟩
termination_by (σ.toks.length, 7)
decreasing_by
all_goals simp_wf
all_goals first
  | exact lexLeft _ _ h1
  | exact lexLeft _ _ hrec
  | exact lexLeft _ _ (lt_of_le_of_lt h2 h1)
  | exact lexRight h1 (by omega)
  | exact lexRight (le_trans hpp hid) (by omega)
  | exact lexRight (le_refl _) (by omega)

/-- `parseEdgeStmt`: the chain of `-> / --` steps, then an optional trailing
attribute list (also after the error `break`). -/
def parseEdgeStmt (σ : PSt) (left : EdgeEndpoint) : PRes σ Stmt :=
  let pr := parseEdgeRights σ []
  have h1 : pr.val.2.toks.length ≤ σ.toks.length := pr.property
  if hlb : curTok pr.val.2 = .lbracket then
    let pa := parseAttrList pr.val.2
    have h2 : pa.2.toks.length ≤ pr.val.2.toks.length := parseAttrList_toks_le pr.val.2
    ⟨(.edge left pr.val.1 (some pa.1), pa.2), by dsimp only; omega⟩
  else
    ⟨(.edge left pr.val.1 none, pr.val.2), pr.property⟩
termination_by (σ.toks.length, 6)
decreasing_by
all_goals simp_wf
all_goals first
  | exact lexLeft _ _ h1
  | exact lexLeft _ _ hrec
  | exact lexLeft _ _ (lt_of_le_of_lt h2 h1)
  | exact lexRight h1 (by omega)
  | exact lexRight (le_trans hpp hid) (by omega)
  | exact lexRight (le_refl _) (by omega)

/-- The `for p.tok == ARROW || DASHDASH` loop of `parseEdgeStmt`: each step
consumes the operator and parses a NodeID or a subgraph/group endpoint; a
malformed endpoint records an error and breaks out of the loop. -/
def parseEdgeRights (σ : PSt) (acc : List (Bool × EdgeEndpoint)) :
    PRes σ (List (Bool × EdgeEndpoint)) :=
  if hop : curTok σ = .arrow ∨ curTok σ = .dashdash then
    have hne : σ.toks ≠ [] := by
      rcases hop with h | h <;> exact curTok_ne_eof_ne_nil (by simp [h])
    let directed := decide (curTok σ = .arrow)
    let σ1 := pnext σ
    have h1 : σ1.toks.length < σ.toks.length := pnext_toks_lt σ hne
    if hsub : curTok σ1 = .subgraphT ∨ curTok σ1 = .lbrace then
      let pe := parseSubgraphOrGroup σ1
      have h2 : pe.val.2.toks.length ≤ σ1.toks.length := pe.property.1
      let rest := parseEdgeRights pe.val.2 (acc ++ [(directed, pe.val.1)])
      have h3 : rest.val.2.toks.length ≤ pe.val.2.toks.length := rest.property
      ⟨rest.val, by omega⟩
    else if hid : isID σ1 then
      let pn := parseNodeID σ1
      have h2 : pn.2.toks.length ≤ σ1.toks.length := parseNodeID_toks_le σ1
      let rest := parseEdgeRights pn.2 (acc ++ [(directed, .node pn.1)])
      have h3 : rest.val.2.toks.length ≤ pn.2.toks.length := rest.property
      ⟨rest.val, by omega⟩
    else
      ⟨(acc, perr σ1 "expected node ID or subgraph after edge operator"), by
        dsimp only
        simp only [perr_toks]
        omega⟩
  else ⟨(acc, σ), le_refl _⟩
termination_by (σ.toks.length, 5)
decreasing_by
all_goals simp_wf
all_goals first
  | exact lexLeft _ _ h1
  | exact lexLeft _ _ hrec
  | exact lexLeft _ _ (lt_of_le_of_lt h2 h1)
  | exact lexRight h1 (by omega)
  | exact lexRight (le_trans hpp hid) (by omega)
  | exact lexRight (le_refl _) (by omega)

/-- `parseSubgraphOrGroup`: a `subgraph` keyword delegates to `parseSubgraph`;
otherwise consume `{`, parse a flat run of bare NodeIDs, and close as a
NodeGroup when `}` follows at least one of them — else convert the consumed
NodeIDs into node statements and continue as an anonymous subgraph. -/
def parseSubgraphOrGroup (σ : PSt) : PResC σ EdgeEndpoint :=
  if hsub : curTok σ = .subgraphT then
    let ps := parseSubgraph σ
    ⟨(.subgraph ps.val.1.1 ps.val.1.2, ps.val.2), ps.property⟩
  else
    let σ1 := expectTok σ .lbrace
    have h1 : σ1.toks.length ≤ σ.toks.length := expectTok_toks_le σ .lbrace
    have h1' : σ.toks ≠ [] → σ1.toks.length < σ.toks.length :=
      fun hne => expectTok_toks_lt σ .lbrace hne
    let pn := parseNodeIDList σ1 []
    have h2 : pn.2.toks.length ≤ σ1.toks.length := parseNodeIDList_toks_le σ1 []
    if hgr : curTok pn.2 = .rbrace ∧ pn.1 ≠ [] then
      have h3 : (pnext pn.2).toks.length ≤ pn.2.toks.length := pnext_toks_le pn.2
      ⟨(.group pn.1, pnext pn.2), by
        exact ⟨by dsimp only; omega,
               fun hne => by have := h1' hne; dsimp only; omega⟩⟩
    else
      -- `parseStmtList` on a state no shorter than σ only happens on the
      -- exhausted stream, where it returns immediately with no output — the
      -- guarded call is exactly the source's unconditional one.
      let pl :=
        if hrec : pn.2.toks.length < σ.toks.length then parseStmtList pn.2
        else ⟨([], pn.2), le_refl _⟩
      have h3 : pl.val.2.toks.length ≤ pn.2.toks.length := pl.property
      let σ2 := expectTok pl.val.2 .rbrace
      have h4 : σ2.toks.length ≤ pl.val.2.toks.length :=
        expectTok_toks_le pl.val.2 .rbrace
      ⟨(.subgraph none ((pn.1.map (fun n => Stmt.node n none)) ++ pl.val.1), σ2), by
        exact ⟨by dsimp only; omega,
               fun hne => by have := h1' hne; dsimp only; omega⟩⟩
termination_by (σ.toks.length, 4)
decreasing_by
all_goals simp_wf
all_goals first
  | exact lexLeft _ _ h1
  | exact lexLeft _ _ hrec
  | exact lexLeft _ _ (lt_of_le_of_lt h2 h1)
  | exact lexRight h1 (by omega)
  | exact lexRight (le_trans hpp hid) (by omega)
  | exact lexRight (le_refl _) (by omega)

/-- `parseSubgraph`: optional `subgraph` keyword and identifier, then a braced
statement list; returns the components of the `ast.Subgraph`. -/
def parseSubgraph (σ : PSt) : PResC σ (Option Ident × List Stmt) :=
  let pid :=
    if hkw : curTok σ = .subgraphT then
      let σa := pnext σ
      if hid : isID σa then
        let pi := parseIdent σa
        ((some pi.1 : Option Ident), pi.2)
      else (none, σa)
    else (none, σ)
  have hpid : pid.2.toks.length ≤ σ.toks.length := by
    have ha := pnext_toks_le σ
    have hb := parseIdent_toks_le (pnext σ)
    dsimp only [pid]
    split_ifs <;> (try dsimp only) <;> omega
  have hpid' : curTok σ = .subgraphT → pid.2.toks.length < σ.toks.length := by
    intro hkw
    have hne : σ.toks ≠ [] := curTok_ne_eof_ne_nil (by simp [hkw])
    have ha := pnext_toks_lt σ hne
    have hb := parseIdent_toks_le (pnext σ)
    dsimp only [pid]
    split_ifs with hid2 <;> (try dsimp only) <;> omega
  let σ2 := expectTok pid.2 .lbrace
  have h2 : σ2.toks.length ≤ pid.2.toks.length := expectTok_toks_le pid.2 .lbrace
  have h2' : pid.2.toks ≠ [] → σ2.toks.length < pid.2.toks.length :=
    fun hne => expectTok_toks_lt pid.2 .lbrace hne
  -- As in `parseSubgraphOrGroup`, the guard only fails on the exhausted
  -- stream, where the statement list is empty anyway.
  let pl :=
    if hrec : σ2.toks.length < σ.toks.length then parseStmtList σ2
    else ⟨([], σ2), le_refl _⟩
  have h3 : pl.val.2.toks.length ≤ σ2.toks.length := pl.property
  let σ3 := expectTok pl.val.2 .rbrace
  have h4 : σ3.toks.length ≤ pl.val.2.toks.length := expectTok_toks_le pl.val.2 .rbrace
  ⟨((pid.1, pl.val.1), σ3), by
    refine ⟨by dsimp only; omega, fun hne => ?_⟩
    by_cases hkw : curTok σ = .subgraphT
    · have := hpid' hkw
      dsimp only
      omega
    · have hne2 : pid.2.toks ≠ [] := by
        dsimp only [pid]
        split_ifs
        exact hne
      have := h2' hne2
      dsimp only
      omega⟩
termination_by (σ.toks.length, 3)
decreasing_by
all_goals simp_wf
all_goals first
  | exact lexLeft _ _ h1
  | exact lexLeft _ _ hrec
  | exact lexLeft _ _ (lt_of_le_of_lt h2 h1)
  | exact lexRight h1 (by omega)
  | exact lexRight (le_trans hpp hid) (by omega)
  | exact lexRight (le_refl _) (by omega)

end

/-! ## Specification-side helpers and lemmas -/

set_option maxRecDepth 20000

/-- Shorthand for a plain identifier. -/
def nm (s : String) : Ident := ⟨s, false, false⟩

/-- Shorthand for a port-free NodeID. -/
def nd (s : String) : NodeID := ⟨nm s, none⟩

/-- The value that wins when an attribute list is folded left-to-right: the
*last* occurrence of the key. -/
def lastAttrVal (al : AttrList) (k : String) : Option String :=
  (al.attrs.reverse.find? (fun a => a.key.name = k)).map (fun a => a.value.name)

/-- What reading attribute `k` back from a node observes: the named field for
the five special keys, the attribute map otherwise. -/
def nodeFieldRead (n : Node) (k : String) : String :=
  if k = "label" then n.Label
  else if k = "color" then n.Color
  else if k = "fillcolor" then n.FillColor
  else if k = "shape" then n.Shape
  else if k = "style" then n.Style
  else mapGet n.Attributes k

/-- `ensureNode`'s gap test for key `k` on a node with id `id`: the field still
holds its unset value (the id itself for `label`, the empty string
otherwise). -/
def nodeFieldUnset (n : Node) (id k : String) : Bool :=
  nodeFieldRead n k == (if k = "label" then id else "")

theorem find?_mapUpdate_self (m : List (String × String)) (k v : String)
    (hany : m.any (fun p => p.1 = k) = true) :
    (m.map (fun p => if p.1 = k then (k, v) else p)).find?
      (fun p => p.1 = k) = some (k, v) := by
  induction m with
  | nil => simp at hany
  | cons p rest ih =>
    by_cases hp : p.1 = k
    · simp [List.find?_cons, hp]
    · have h2 : rest.any (fun q => q.1 = k) = true := by
        simpa [List.any_cons, hp] using hany
      simpa [List.find?_cons, hp] using ih h2

theorem find?_mapUpdate_ne (m : List (String × String)) (k v k' : String)
    (h : k' ≠ k) :
    (m.map (fun p => if p.1 = k then (k, v) else p)).find? (fun p => p.1 = k')
      = m.find? (fun p => p.1 = k') := by
  induction m with
  | nil => rfl
  | cons p rest ih =>
    by_cases hp : p.1 = k
    · simpa [List.find?_cons, hp, Ne.symm h] using ih
    · by_cases hp' : p.1 = k'
      · simp [List.find?_cons, hp, hp', h]
      · simpa [List.find?_cons, hp, hp'] using ih

theorem mapGet_mapInsert_self (m : List (String × String)) (k v : String) :
    mapGet (mapInsert m k v) k = v := by
  unfold mapInsert mapGet
  split
  · rename_i hany
    rw [find?_mapUpdate_self m k v hany]
    rfl
  · rw [List.find?_append]
    cases hf : m.find? (fun p => p.1 = k) with
    | some x =>
      rename_i hany
      exfalso
      have hpred := List.find?_some hf
      have hmem := List.mem_of_find?_eq_some hf
      have : m.any (fun p => p.1 = k) = true := List.any_eq_true.mpr ⟨x, hmem, hpred⟩
      exact hany this
    | none => simp [List.find?_cons]

theorem mapGet_mapInsert_ne (m : List (String × String)) (k v k' : String)
    (h : k' ≠ k) : mapGet (mapInsert m k v) k' = mapGet m k' := by
  unfold mapInsert mapGet
  split
  · rw [find?_mapUpdate_ne m k v k' h]
  · rw [List.find?_append]
    cases hf : m.find? (fun p => p.1 = k') with
    | some x => simp
    | none => simp [List.find?_cons, Ne.symm h]

theorem label_applyNodeAttr_ne (n : Node) (k v : String) (h : k ≠ "label") :
    (applyNodeAttr n k v).Label = n.Label := by
  unfold applyNodeAttr
  split_ifs <;> simp_all

theorem color_applyNodeAttr_ne (n : Node) (k v : String) (h : k ≠ "color") :
    (applyNodeAttr n k v).Color = n.Color := by
  unfold applyNodeAttr
  split_ifs <;> simp_all

theorem fillcolor_applyNodeAttr_ne (n : Node) (k v : String) (h : k ≠ "fillcolor") :
    (applyNodeAttr n k v).FillColor = n.FillColor := by
  unfold applyNodeAttr
  split_ifs <;> simp_all

theorem shape_applyNodeAttr_ne (n : Node) (k v : String) (h : k ≠ "shape") :
    (applyNodeAttr n k v).Shape = n.Shape := by
  unfold applyNodeAttr
  split_ifs <;> simp_all

theorem style_applyNodeAttr_ne (n : Node) (k v : String) (h : k ≠ "style") :
    (applyNodeAttr n k v).Style = n.Style := by
  unfold applyNodeAttr
  split_ifs <;> simp_all

theorem attrs_applyNodeAttr_special (n : Node) (k v : String)
    (h : k = "label" ∨ k = "color" ∨ k = "fillcolor" ∨ k = "shape" ∨ k = "style") :
    (applyNodeAttr n k v).Attributes = n.Attributes := by
  unfold applyNodeAttr
  rcases h with h | h | h | h | h <;> subst h <;> simp

theorem attrs_applyNodeAttr_default (n : Node) (k v : String)
    (h : ¬ (k = "label" ∨ k = "color" ∨ k = "fillcolor" ∨ k = "shape" ∨ k = "style")) :
    (applyNodeAttr n k v).Attributes = mapInsert n.Attributes k v := by
  unfold applyNodeAttr
  push_neg at h
  obtain ⟨h1, h2, h3, h4, h5⟩ := h
  simp [h1, h2, h3, h4, h5]

theorem nodeFieldRead_applyNodeAttr_self (n : Node) (k v : String) :
    nodeFieldRead (applyNodeAttr n k v) k = v := by
  unfold nodeFieldRead
  by_cases h1 : k = "label"
  · subst h1; simp [applyNodeAttr]
  by_cases h2 : k = "color"
  · subst h2; simp [applyNodeAttr]
  by_cases h3 : k = "fillcolor"
  · subst h3; simp [applyNodeAttr]
  by_cases h4 : k = "shape"
  · subst h4; simp [applyNodeAttr]
  by_cases h5 : k = "style"
  · subst h5; simp [applyNodeAttr]
  rw [if_neg h1, if_neg h2, if_neg h3, if_neg h4, if_neg h5,
    attrs_applyNodeAttr_default n k v (by tauto), mapGet_mapInsert_self]

theorem nodeFieldRead_applyNodeAttr_ne (n : Node) (k v k' : String) (h : k' ≠ k) :
    nodeFieldRead (applyNodeAttr n k v) k' = nodeFieldRead n k' := by
  unfold nodeFieldRead
  by_cases h1 : k' = "label"
  · subst h1
    simp [label_applyNodeAttr_ne n k v (Ne.symm h)]
  by_cases h2 : k' = "color"
  · subst h2
    simp [h1, color_applyNodeAttr_ne n k v (Ne.symm h)]
  by_cases h3 : k' = "fillcolor"
  · subst h3
    simp [h1, h2, fillcolor_applyNodeAttr_ne n k v (Ne.symm h)]
  by_cases h4 : k' = "shape"
  · subst h4
    simp [h1, h2, h3, shape_applyNodeAttr_ne n k v (Ne.symm h)]
  by_cases h5 : k' = "style"
  · subst h5
    simp [h1, h2, h3, h4, style_applyNodeAttr_ne n k v (Ne.symm h)]
  rw [if_neg h1, if_neg h2, if_neg h3, if_neg h4, if_neg h5,
    if_neg h1, if_neg h2, if_neg h3, if_neg h4, if_neg h5]
  by_cases hs : k = "label" ∨ k = "color" ∨ k = "fillcolor" ∨ k = "shape" ∨ k = "style"
  · rw [attrs_applyNodeAttr_special n k v hs]
  · rw [attrs_applyNodeAttr_default n k v hs, mapGet_mapInsert_ne _ _ _ _ h]

theorem group_applyNodeAttr (n : Node) (k v : String) :
    (applyNodeAttr n k v).Group = n.Group := by
  unfold applyNodeAttr
  split_ifs <;> rfl

theorem applyCondDefault_eq (id : String) (n : Node) (k v : String) :
    applyCondDefault id n k v =
      if nodeFieldUnset n id k then applyNodeAttr n k v else n := by
  unfold applyCondDefault nodeFieldUnset nodeFieldRead
  split_ifs <;> simp_all

theorem group_applyCondDefault (id : String) (n : Node) (k v : String) :
    (applyCondDefault id n k v).Group = n.Group := by
  rw [applyCondDefault_eq]
  split <;> simp [group_applyNodeAttr]

theorem nodeFieldRead_applyCondDefault_ne (id : String) (n : Node) (k v k' : String)
    (h : k' ≠ k) :
    nodeFieldRead (applyCondDefault id n k v) k' = nodeFieldRead n k' := by
  rw [applyCondDefault_eq]
  split <;> simp [nodeFieldRead_applyNodeAttr_ne _ _ _ _ h]

theorem nodeFieldRead_setGroup (n : Node) (g : String) (k : String) :
    nodeFieldRead { n with Group := g } k = nodeFieldRead n k := by
  unfold nodeFieldRead
  split_ifs <;> simp [mapGet]

/-- Folding an attribute list over a node: key `k` reads back as the last
occurrence's value, or as before when `k` never occurs. -/
theorem nodeFieldRead_foldAttrs (attrs : List Attr) (n : Node) (k : String) :
    nodeFieldRead
      (attrs.foldl (fun n a => applyNodeAttr n a.key.name a.value.name) n) k =
    ((attrs.reverse.find? (fun a => a.key.name = k)).map
      (fun a => a.value.name)).getD (nodeFieldRead n k) := by
  induction attrs generalizing n with
  | nil => simp
  | cons a rest ih =>
    rw [List.foldl_cons, ih]
    rw [List.reverse_cons, List.find?_append]
    cases hf : rest.reverse.find? (fun a => a.key.name = k) with
    | some x => simp [hf]
    | none =>
      by_cases hk : a.key.name = k
      · subst hk
        simp [hf, nodeFieldRead_applyNodeAttr_self]
      · simp [hf, hk, nodeFieldRead_applyNodeAttr_ne _ _ _ _ (Ne.symm hk)]

/-- Folding a defaults map over a node (the unconditional `processNodeStmt`
loop): key `k` reads back as the last map entry for `k`, or as before. -/
theorem nodeFieldRead_foldDefs (ds : List (String × String)) (n : Node) (k : String) :
    nodeFieldRead (ds.foldl (fun n kv => applyNodeAttr n kv.1 kv.2) n) k =
    ((ds.reverse.find? (fun kv => kv.1 = k)).map Prod.snd).getD
      (nodeFieldRead n k) := by
  induction ds generalizing n with
  | nil => simp
  | cons kv rest ih =>
    rw [List.foldl_cons, ih]
    rw [List.reverse_cons, List.find?_append]
    cases hf : rest.reverse.find? (fun kv => kv.1 = k) with
    | some x => simp [hf]
    | none =>
      by_cases hk : kv.1 = k
      · subst hk
        simp [hf, nodeFieldRead_applyNodeAttr_self]
      · simp [hf, hk, nodeFieldRead_applyNodeAttr_ne _ _ _ _ (Ne.symm hk)]

/-- For a map with unique keys (every Go map), searching the reversal finds
the same entry. -/
theorem find?_reverse_of_nodupKeys (ds : List (String × String)) (k : String)
    (h : (ds.map Prod.fst).Nodup) :
    ds.reverse.find? (fun kv => kv.1 = k) = ds.find? (fun kv => kv.1 = k) := by
  induction ds with
  | nil => simp
  | cons kv rest ih =>
    simp only [List.map_cons, List.nodup_cons] at h
    rw [List.reverse_cons, List.find?_append]
    by_cases hk : kv.1 = k
    · subst hk
      have : rest.find? (fun q => q.1 = kv.1) = none := by
        rw [List.find?_eq_none]
        intro q hq hqk
        have hq1 : q.1 = kv.1 := by simpa using hqk
        have hmem : q.1 ∈ rest.map Prod.fst := List.mem_map_of_mem Prod.fst hq
        rw [hq1] at hmem
        exact absurd hmem (by simpa using h.1)
      rw [ih h.2, this]
      simp [List.find?_cons]
    · rw [ih h.2]
      cases hf : rest.find? (fun q => q.1 = k) <;>
        simp [hf, List.find?_cons, hk]

theorem group_foldDefs (ds : List (String × String)) (n : Node) :
    (ds.foldl (fun n kv => applyNodeAttr n kv.1 kv.2) n).Group = n.Group := by
  induction ds generalizing n with
  | nil => rfl
  | cons kv rest ih => rw [List.foldl_cons, ih, group_applyNodeAttr]

theorem group_foldAttrs (attrs : List Attr) (n : Node) :
    (attrs.foldl (fun n a => applyNodeAttr n a.key.name a.value.name) n).Group
      = n.Group := by
  induction attrs generalizing n with
  | nil => rfl
  | cons a rest ih => rw [List.foldl_cons, ih, group_applyNodeAttr]

theorem group_foldCond (ds : List (String × String)) (id : String) (n : Node) :
    (ds.foldl (fun n kv => applyCondDefault id n kv.1 kv.2) n).Group = n.Group := by
  induction ds generalizing n with
  | nil => rfl
  | cons kv rest ih => rw [List.foldl_cons, ih, group_applyCondDefault]

/-- A conditional-defaults fold never touches a key-`k` field that is already
set (the gap test fails now and keeps failing). -/
theorem nodeFieldRead_foldCond_set (ds : List (String × String)) (id : String)
    (n : Node) (k : String) (h : nodeFieldUnset n id k = false) :
    nodeFieldRead (ds.foldl (fun n kv => applyCondDefault id n kv.1 kv.2) n) k =
      nodeFieldRead n k := by
  induction ds generalizing n with
  | nil => rfl
  | cons kv rest ih =>
    rw [List.foldl_cons]
    by_cases hk : kv.1 = k
    · subst hk
      rw [applyCondDefault_eq]
      rw [h]
      simp only [Bool.false_eq_true, if_false]
      exact ih n h
    · have hread := nodeFieldRead_applyCondDefault_ne id n kv.1 kv.2 k (Ne.symm hk)
      have hunset : nodeFieldUnset (applyCondDefault id n kv.1 kv.2) id k = false := by
        unfold nodeFieldUnset at h ⊢
        rw [hread]
        exact h
      rw [ih _ hunset, hread]

/-- Steps for keys other than `k` leave the key-`k` field alone. -/
theorem nodeFieldRead_foldCond_nokey (ds : List (String × String)) (id : String)
    (n : Node) (k : String) (h : ∀ kv ∈ ds, kv.1 ≠ k) :
    nodeFieldRead (ds.foldl (fun n kv => applyCondDefault id n kv.1 kv.2) n) k =
      nodeFieldRead n k := by
  induction ds generalizing n with
  | nil => rfl
  | cons kv rest ih =>
    rw [List.foldl_cons]
    have hk : kv.1 ≠ k := h kv (List.mem_cons_self _ _)
    rw [ih _ (fun q hq => h q (List.mem_cons_of_mem _ hq)),
      nodeFieldRead_applyCondDefault_ne id n kv.1 kv.2 k (Ne.symm hk)]

/-- On a still-unset key-`k` field, a conditional-defaults fold with unique
keys fills in exactly the map's value for `k` (the field stays as it was when
the map has no `k`). -/
theorem nodeFieldRead_foldCond_unset (ds : List (String × String)) (id : String)
    (n : Node) (k : String) (hnd : (ds.map Prod.fst).Nodup)
    (h : nodeFieldUnset n id k = true) :
    nodeFieldRead (ds.foldl (fun n kv => applyCondDefault id n kv.1 kv.2) n) k =
      ((ds.find? (fun kv => kv.1 = k)).map Prod.snd).getD (nodeFieldRead n k) := by
  induction ds generalizing n with
  | nil => simp
  | cons kv rest ih =>
    simp only [List.map_cons, List.nodup_cons] at hnd
    rw [List.foldl_cons]
    by_cases hk : kv.1 = k
    · subst hk
      rw [applyCondDefault_eq, h]
      simp only [if_true]
      have hnok : ∀ q ∈ rest, q.1 ≠ kv.1 := by
        intro q hq hqk
        have hmem : q.1 ∈ rest.map Prod.fst := List.mem_map_of_mem Prod.fst hq
        rw [hqk] at hmem
        exact absurd hmem (by simpa using hnd.1)
      rw [nodeFieldRead_foldCond_nokey rest id _ kv.1 hnok,
        nodeFieldRead_applyNodeAttr_self]
      simp [List.find?_cons]
    · have hread := nodeFieldRead_applyCondDefault_ne id n kv.1 kv.2 k (Ne.symm hk)
      have hunset : nodeFieldUnset (applyCondDefault id n kv.1 kv.2) id k = true := by
        unfold nodeFieldUnset at h ⊢
        rw [hread]
        exact h
      rw [ih _ hnd.2 hunset, hread]
      simp [List.find?_cons, hk]

theorem findNode_updateNode_self (c : Converter) (id : String) (f : Node → Node) :
    findNode (updateNode c id f) id = (findNode c id).map f := by
  unfold findNode updateNode
  induction c.nodes with
  | nil => rfl
  | cons p rest ih =>
    by_cases hp : p.1 = id
    · simp [List.find?_cons, hp]
    · simpa [List.find?_cons, hp] using ih

theorem findNode_getOrCreateNode_self (c : Converter) (id : String) :
    findNode (getOrCreateNode c id) id =
      some ((findNode c id).getD { ID := id, Label := id }) := by
  unfold findNode getOrCreateNode
  split
  · rename_i hany
    rw [List.any_eq_true] at hany
    obtain ⟨x, hmem, hpred⟩ := hany
    cases hf : c.nodes.find? (fun p => p.1 = id) with
    | some y => simp
    | none =>
      rw [List.find?_eq_none] at hf
      exact absurd hpred (by simpa using hf x hmem)
  · rename_i hany
    have hf : c.nodes.find? (fun p => p.1 = id) = none := by
      rw [List.find?_eq_none]
      intro q hq hqk
      exact hany (List.any_eq_true.mpr ⟨q, hq, hqk⟩)
    rw [List.find?_append, hf]
    simp [List.find?_cons]

theorem nodeDefaults_getOrCreateNode (c : Converter) (id : String) :
    (getOrCreateNode c id).nodeDefaults = c.nodeDefaults := by
  unfold getOrCreateNode
  split <;> rfl

/-- What `processNodeStmt` stores for the statement's own node: defaults
folded in unconditionally, then the explicit attributes, then the group. -/
theorem processNodeStmt_spec (c : Converter) (nid : NodeID)
    (attrs : Option AttrList) (sg : String) :
    findNode (processNodeStmt c nid attrs sg) nid.id.name =
      some (
        let n0 := (findNode c nid.id.name).getD
          { ID := nid.id.name, Label := nid.id.name }
        let n1 := c.nodeDefaults.foldl (fun n kv => applyNodeAttr n kv.1 kv.2) n0
        let n2 := match attrs with
          | none => n1
          | some al => al.attrs.foldl
              (fun n a => applyNodeAttr n a.key.name a.value.name) n1
        if sg ≠ "" then { n2 with Group := sg } else n2) := by
  unfold processNodeStmt
  rw [findNode_updateNode_self, findNode_getOrCreateNode_self,
    nodeDefaults_getOrCreateNode]
  rfl

/-- What `ensureNode` stores for the node: defaults folded in conditionally,
then the group only when still unset. -/
theorem ensureNode_spec (c : Converter) (id : String) (sg : String) :
    findNode (ensureNode c id sg) id =
      some (
        let n0 := (findNode c id).getD { ID := id, Label := id }
        let n1 := c.nodeDefaults.foldl
          (fun n kv => applyCondDefault id n kv.1 kv.2) n0
        if sg ≠ "" ∧ n1.Group = "" then { n1 with Group := sg } else n1) := by
  unfold ensureNode
  rw [findNode_updateNode_self, findNode_getOrCreateNode_self,
    nodeDefaults_getOrCreateNode]
  rfl

/-! ## C1: NodeStatement default/explicit attribute application -/

/-- The AST of `digraph { node [color=red] A [color=blue] }`. -/
def gC1 : ASTGraph :=
  { strict := false, directed := true, id := none,
    statements := [
      .attr .nodeAttr (some ⟨[⟨nm "color", nm "red"⟩]⟩),
      .node (nd "A") (some ⟨[⟨nm "color", nm "blue"⟩]⟩)] }

theorem nodeFieldRead_fresh (id k : String) :
    nodeFieldRead { ID := id, Label := id } k =
      (if k = "label" then id else "") := by
  unfold nodeFieldRead
  split_ifs <;> simp_all [mapGet]

/-- C1.  `processNodeStmt` applies the current node defaults key-by-key,
unconditionally overwriting, then the statement's own explicit attributes,
unconditionally overwriting: (1) an explicit attribute always determines the
stored field, whatever the defaults and the node's previous state; (2) with no
explicit attribute for a key, the default overwrites whatever was stored
before; (3) converting the AST of `digraph { node [color=red] A [color=blue] }`
yields node A with color `blue`. -/
theorem c1_explicit_wins_over_defaults :
    (∀ (c : Converter) (nid : NodeID) (al : AttrList) (sg k v : String),
      lastAttrVal al k = some v →
      (findNode (processNodeStmt c nid (some al) sg) nid.id.name).map
        (fun n => nodeFieldRead n k) = some v)
    ∧
    (∀ (c : Converter) (nid : NodeID) (al : AttrList) (sg k v : String),
      (c.nodeDefaults.map Prod.fst).Nodup →
      lastAttrVal al k = none →
      (c.nodeDefaults.find? (fun kv => kv.1 = k)).map Prod.snd = some v →
      (findNode (processNodeStmt c nid (some al) sg) nid.id.name).map
        (fun n => nodeFieldRead n k) = some v)
    ∧
    (findNode (runConvert gC1) "A").map Node.Color = some "blue" := by
  refine ⟨?_, ?_, ?_⟩
  · intro c nid al sg k v hval
    rw [processNodeStmt_spec]
    dsimp only
    unfold lastAttrVal at hval
    split
    · rw [Option.map_some', nodeFieldRead_setGroup, nodeFieldRead_foldAttrs, hval]
      rfl
    · rw [Option.map_some', nodeFieldRead_foldAttrs, hval]
      rfl
  · intro c nid al sg k v hnd hnone hdef
    rw [processNodeStmt_spec]
    dsimp only
    unfold lastAttrVal at hnone
    rw [Option.map_eq_none'] at hnone
    have hfold : ∀ n : Node,
        nodeFieldRead (al.attrs.foldl
          (fun n a => applyNodeAttr n a.key.name a.value.name) n) k =
        nodeFieldRead n k := by
      intro n
      rw [nodeFieldRead_foldAttrs, hnone]
      rfl
    have hdefs : ∀ n : Node,
        nodeFieldRead (c.nodeDefaults.foldl
          (fun n kv => applyNodeAttr n kv.1 kv.2) n) k = v := by
      intro n
      rw [nodeFieldRead_foldDefs, find?_reverse_of_nodupKeys _ _ hnd]
      cases hf : c.nodeDefaults.find? (fun kv => kv.1 = k) with
      | none => rw [hf] at hdef; simp at hdef
      | some x =>
        rw [hf] at hdef
        simp only [Option.map_some', Option.some_inj] at hdef
        simp [hdef]
    split
    · rw [Option.map_some', nodeFieldRead_setGroup, hfold, hdefs]
    · rw [Option.map_some', hfold, hdefs]
  · simp [gC1, runConvert, processStatements, processStatement, processNodeStmt,
      processAttrStmt, getOrCreateNode, updateNode, findNode, applyNodeAttr,
      mapInsert, nm, nd]

/-- Witness for `c1_explicit_wins_over_defaults`: node defaults `color=red`,
an explicit `color=blue` on the statement (first conjunct), and a node whose
statement carries no `shape` while the defaults do (second conjunct). -/
theorem c1_explicit_wins_over_defaults_witness :
    ((findNode (processNodeStmt
        { nodes := [], links := [], subgraphs := [], directed := true,
          strict := false, graphID := "",
          nodeDefaults := [("color", "red")], edgeDefaults := [] }
        (nd "A") (some ⟨[⟨nm "color", nm "blue"⟩]⟩) "") "A").map
      (fun n => nodeFieldRead n "color") = some "blue")
    ∧
    ((findNode (processNodeStmt
        { nodes := [], links := [], subgraphs := [], directed := true,
          strict := false, graphID := "",
          nodeDefaults := [("shape", "box")], edgeDefaults := [] }
        (nd "A") (some ⟨[⟨nm "color", nm "blue"⟩]⟩) "") "A").map
      (fun n => nodeFieldRead n "shape") = some "box") := by
  constructor
  · exact c1_explicit_wins_over_defaults.1 _ (nd "A") _ "" "color" "blue"
      (by decide)
  · exact c1_explicit_wins_over_defaults.2.1 _ (nd "A") _ "" "shape" "box"
      (by decide) (by decide) (by decide)

/-! ## C2: conditional default application for edge-endpoint nodes -/

/-- The AST of `digraph { node [color=red] A -> B }`. -/
def gC2 : ASTGraph :=
  { strict := false, directed := true, id := none,
    statements := [
      .attr .nodeAttr (some ⟨[⟨nm "color", nm "red"⟩]⟩),
      .edge (.node (nd "A")) [(true, .node (nd "B"))] none] }

/-- C2.  `ensureNode` (edge-endpoint materialisation) applies node defaults
conditionally: (1) a field that is already set (label different from the id,
color/fillcolor/shape/style nonempty, attribute key present and nonempty) is
never overwritten; (2) on a node first materialised here (absent from the
map), every field reads back as the defaults' entry for its key, the unset
value (the id for `label`, `""` otherwise) when the defaults lack the key;
(3) converting `digraph { node [color=red] A -> B }` yields both A and B with
color `red`. -/
theorem c2_endpoint_defaults_fill_gaps_only :
    (∀ (c : Converter) (id sg k : String) (n : Node),
      findNode c id = some n →
      nodeFieldUnset n id k = false →
      (findNode (ensureNode c id sg) id).map (fun m => nodeFieldRead m k) =
        some (nodeFieldRead n k))
    ∧
    (∀ (c : Converter) (id sg k : String),
      findNode c id = none →
      (c.nodeDefaults.map Prod.fst).Nodup →
      (findNode (ensureNode c id sg) id).map (fun m => nodeFieldRead m k) =
        some (((c.nodeDefaults.find? (fun kv => kv.1 = k)).map Prod.snd).getD
          (if k = "label" then id else "")))
    ∧
    ((findNode (runConvert gC2) "A").map Node.Color = some "red" ∧
     (findNode (runConvert gC2) "B").map Node.Color = some "red") := by
  refine ⟨?_, ?_, ?_⟩
  · intro c id sg k n hfind hset
    rw [ensureNode_spec]
    dsimp only
    rw [hfind]
    dsimp only [Option.getD_some]
    split
    · rw [Option.map_some', nodeFieldRead_setGroup,
        nodeFieldRead_foldCond_set _ _ _ _ hset]
    · rw [Option.map_some', nodeFieldRead_foldCond_set _ _ _ _ hset]
  · intro c id sg k hfind hnd
    rw [ensureNode_spec]
    dsimp only
    rw [hfind]
    dsimp only [Option.getD_none]
    have hunset : nodeFieldUnset { ID := id, Label := id } id k = true := by
      unfold nodeFieldUnset
      rw [nodeFieldRead_fresh]
      simp
    have hfold := nodeFieldRead_foldCond_unset c.nodeDefaults id
      { ID := id, Label := id } k hnd hunset
    rw [nodeFieldRead_fresh] at hfold
    split
    · rw [Option.map_some', nodeFieldRead_setGroup, hfold]
    · rw [Option.map_some', hfold]
  · constructor <;>
      simp [gC2, runConvert, processStatements, processStatement,
        processEdgeStmt, processEdgeRights, collectEndpoints, ensureNode,
        getOrCreateNode, updateNode, findNode, applyCondDefault, applyNodeAttr,
        addLinksAll, addLinkChecked, buildLink, linkExists, applyLinkAttr,
        processAttrStmt, mapInsert, mapGet, nm, nd]

/-- Witness for `c2_endpoint_defaults_fill_gaps_only`: a node whose color is
already `blue` keeps it through `ensureNode` under a `color=red` default
(first conjunct); a fresh endpoint node picks up `color=red` (second
conjunct). -/
theorem c2_endpoint_defaults_fill_gaps_only_witness :
    ((findNode (ensureNode
        { nodes := [("A", { ID := "A", Label := "A", Color := "blue" })],
          links := [], subgraphs := [], directed := true, strict := false,
          graphID := "", nodeDefaults := [("color", "red")],
          edgeDefaults := [] } "A" "") "A").map
      (fun m => nodeFieldRead m "color") = some "blue")
    ∧
    ((findNode (ensureNode
        { nodes := [], links := [], subgraphs := [], directed := true,
          strict := false, graphID := "",
          nodeDefaults := [("color", "red")], edgeDefaults := [] }
        "B" "") "B").map
      (fun m => nodeFieldRead m "color") = some "red") := by
  constructor
  · have h := c2_endpoint_defaults_fill_gaps_only.1
      { nodes := [("A", { ID := "A", Label := "A", Color := "blue" })],
        links := [], subgraphs := [], directed := true, strict := false,
        graphID := "", nodeDefaults := [("color", "red")],
        edgeDefaults := [] } "A" "" "color"
      { ID := "A", Label := "A", Color := "blue" } (by decide) (by decide)
    simpa using h
  · have h := c2_endpoint_defaults_fill_gaps_only.2.1
      { nodes := [], links := [], subgraphs := [], directed := true,
        strict := false, graphID := "",
        nodeDefaults := [("color", "red")], edgeDefaults := [] }
      "B" "" "color" (by decide) (by decide)
    simpa using h

/-! ## C6: subgraph membership (Group) assignment -/

/-- The AST of `digraph { subgraph s1 { A } subgraph s2 { A } }`. -/
def gC6 : ASTGraph :=
  { strict := false, directed := true, id := none,
    statements := [
      .subgraph (some (nm "s1")) [.node (nd "A") none],
      .subgraph (some (nm "s2")) [.node (nd "A") none]] }

/-- The initial converter state for `gC6`. -/
def cInitC6 : Converter :=
  { nodes := [], links := [], subgraphs := [], directed := true,
    strict := false, graphID := "", nodeDefaults := [], edgeDefaults := [] }

set_option maxHeartbeats 2000000 in
/-- Counterexample to C6: in
`digraph { subgraph s1 { A } subgraph s2 { A } }` node A's first group
assignment is `s1` (the state after the first statement shows it), yet the
resulting graph model stores Group `s2` — the later subgraph's NodeStatement
reassigned it, so a node does *not* always keep its first group assignment. -/
theorem c6_counterexample_group_reassigned :
    (findNode (processStatement cInitC6
        (.subgraph (some (nm "s1")) [.node (nd "A") none]) "") "A").map
      Node.Group = some "s1"
    ∧
    (findNode (runConvert gC6) "A").map Node.Group = some "s2" := by
  constructor <;>
    simp [gC6, cInitC6, runConvert, processStatements, processStatement,
      processSubgraph, processSubgraphCollect, processSubgraphCollectStmt,
      subgraphRecordOf, processNodeStmt,
      getOrCreateNode, updateNode, findNode, applyNodeAttr, mapInsert, nm, nd]

/-- C6, amended.  A node *referenced again as an edge endpoint* in a different
subgraph keeps its existing group assignment (`ensureNode` writes `Group` only
when it is still empty), but a NodeStatement for the node inside a later
subgraph unconditionally reassigns `Group` to that subgraph — as the
counterexample `digraph { subgraph s1 { A } subgraph s2 { A } }` shows, where
A ends up in group `s2`. -/
theorem c6_amended_group_assignment :
    (∀ (c : Converter) (id sg : String) (n : Node),
      findNode c id = some n → n.Group ≠ "" →
      (findNode (ensureNode c id sg) id).map Node.Group = some n.Group)
    ∧
    (∀ (c : Converter) (nid : NodeID) (attrs : Option AttrList) (sg : String),
      sg ≠ "" →
      (findNode (processNodeStmt c nid attrs sg) nid.id.name).map Node.Group =
        some sg) := by
  constructor
  · intro c id sg n hfind hgrp
    rw [ensureNode_spec]
    dsimp only
    rw [hfind]
    dsimp only [Option.getD_some]
    rw [if_neg (by rw [group_foldCond]; tauto)]
    rw [Option.map_some', group_foldCond]
  · intro c nid attrs sg hsg
    rw [processNodeStmt_spec]
    dsimp only
    rw [if_pos hsg, Option.map_some']

/-- Witness for `c6_amended_group_assignment`: an endpoint reference keeps the
existing group `s1`; a NodeStatement under subgraph `s2` stores `s2`. -/
theorem c6_amended_group_assignment_witness :
    ((findNode (ensureNode
        { nodes := [("A", { ID := "A", Label := "A", Group := "s1" })],
          links := [], subgraphs := [], directed := true, strict := false,
          graphID := "", nodeDefaults := [], edgeDefaults := [] }
        "A" "s2") "A").map Node.Group = some "s1")
    ∧
    ((findNode (processNodeStmt cInitC6 (nd "A") none "s2") "A").map
      Node.Group = some "s2") := by
  constructor
  · have h := c6_amended_group_assignment.1
      { nodes := [("A", { ID := "A", Label := "A", Group := "s1" })],
        links := [], subgraphs := [], directed := true, strict := false,
        graphID := "", nodeDefaults := [], edgeDefaults := [] }
      "A" "s2" { ID := "A", Label := "A", Group := "s1" } (by decide) (by decide)
    simpa using h
  · exact c6_amended_group_assignment.2 cInitC6 (nd "A") none "s2" (by decide)

/-! ## C3/C7 machinery: what one converter step can do to the state

`ConvStep c c'` holds between a converter state and the state any of the
processing functions produces from it: the graph header is untouched, links
and node keys only grow at the end (nothing is removed or reordered), and in
strict mode the no-equivalent-duplicate property of the link list is
preserved. -/

/-- Strict mode's invariant on the accumulated links: no stored link is
equivalent to a later one. -/
def NoDupLinks (directed : Bool) (links : List Link) : Prop :=
  List.Pairwise
    (fun l1 l2 => linkMatches directed l1 l2.Source l2.Target = false) links

def ConvStep (c c' : Converter) : Prop :=
  c'.directed = c.directed ∧ c'.strict = c.strict ∧
  c.links <+: c'.links ∧
  (c.nodes.map Prod.fst) <+: (c'.nodes.map Prod.fst) ∧
  ((c.strict = true → NoDupLinks c.directed c.links) →
    (c'.strict = true → NoDupLinks c'.directed c'.links))

theorem ConvStep.refl (c : Converter) : ConvStep c c :=
  ⟨rfl, rfl, List.prefix_rfl, List.prefix_rfl, fun h => h⟩

theorem ConvStep.trans {a b c : Converter} (h1 : ConvStep a b)
    (h2 : ConvStep b c) : ConvStep a c := by
  obtain ⟨d1, s1, l1, n1, p1⟩ := h1
  obtain ⟨d2, s2, l2, n2, p2⟩ := h2
  exact ⟨d2.trans d1, s2.trans s1, l1.trans l2, n1.trans n2,
    fun h => p2 (p1 h)⟩

theorem ConvStep.foldl {α : Type} (g : Converter → α → Converter)
    (hg : ∀ c x, ConvStep c (g c x)) :
    ∀ (l : List α) (c : Converter), ConvStep c (l.foldl g c) := by
  intro l
  induction l with
  | nil => exact fun c => ConvStep.refl c
  | cons x rest ih =>
    intro c
    exact (hg c x).trans (ih (g c x))

theorem getOrCreateNode_step (c : Converter) (id : String) :
    ConvStep c (getOrCreateNode c id) := by
  unfold getOrCreateNode
  split
  · exact ConvStep.refl c
  · refine ⟨rfl, rfl, List.prefix_rfl, ?_, fun h => h⟩
    simp

theorem updateNode_step (c : Converter) (id : String) (f : Node → Node) :
    ConvStep c (updateNode c id f) := by
  refine ⟨rfl, rfl, List.prefix_rfl, ?_, fun h => h⟩
  unfold updateNode
  have : (c.nodes.map (fun p => if p.1 = id then (p.1, f p.2) else p)).map
      Prod.fst = c.nodes.map Prod.fst := by
    rw [List.map_map]
    apply List.map_congr_left
    intro p _
    by_cases hp : p.1 = id <;> simp [hp]
  simp only [this]
  exact List.prefix_rfl

theorem processNodeStmt_step (c : Converter) (nid : NodeID)
    (attrs : Option AttrList) (sg : String) :
    ConvStep c (processNodeStmt c nid attrs sg) :=
  (getOrCreateNode_step c nid.id.name).trans (updateNode_step _ _ _)

theorem ensureNode_step (c : Converter) (id sg : String) :
    ConvStep c (ensureNode c id sg) :=
  (getOrCreateNode_step c id).trans (updateNode_step _ _ _)

theorem processAttrStmt_step (c : Converter) (kind : AttrKind)
    (attrs : Option AttrList) :
    ConvStep c (processAttrStmt c kind attrs) := by
  unfold processAttrStmt
  rcases attrs with _ | al
  · exact ConvStep.refl c
  · rcases kind with _ | _ | _ <;>
      exact ⟨rfl, rfl, List.prefix_rfl, List.prefix_rfl, fun h => h⟩

theorem buildLink_source (c : Converter) (s t : String) (attrs : Option AttrList) :
    (buildLink c s t attrs).Source = s := by
  unfold buildLink
  have hstep : ∀ (l : Link) (k v : String), (applyLinkAttr l k v).Source = l.Source := by
    intro l k v
    unfold applyLinkAttr
    split_ifs <;> rfl
  have hfold : ∀ (kvs : List (String × String)) (l : Link),
      (kvs.foldl (fun l kv => applyLinkAttr l kv.1 kv.2) l).Source = l.Source := by
    intro kvs
    induction kvs with
    | nil => intro l; rfl
    | cons kv rest ih => intro l; rw [List.foldl_cons, ih, hstep]
  have hfold2 : ∀ (al : AttrList) (l : Link),
      (al.attrs.foldl (fun l a => applyLinkAttr l a.key.name a.value.name) l).Source
        = l.Source := by
    intro al
    induction al.attrs with
    | nil => intro l; rfl
    | cons a rest ih => intro l; rw [List.foldl_cons, ih, hstep]
  rcases attrs with _ | al <;> simp [hfold, hfold2]

theorem buildLink_target (c : Converter) (s t : String) (attrs : Option AttrList) :
    (buildLink c s t attrs).Target = t := by
  unfold buildLink
  have hstep : ∀ (l : Link) (k v : String), (applyLinkAttr l k v).Target = l.Target := by
    intro l k v
    unfold applyLinkAttr
    split_ifs <;> rfl
  have hfold : ∀ (kvs : List (String × String)) (l : Link),
      (kvs.foldl (fun l kv => applyLinkAttr l kv.1 kv.2) l).Target = l.Target := by
    intro kvs
    induction kvs with
    | nil => intro l; rfl
    | cons kv rest ih => intro l; rw [List.foldl_cons, ih, hstep]
  have hfold2 : ∀ (al : AttrList) (l : Link),
      (al.attrs.foldl (fun l a => applyLinkAttr l a.key.name a.value.name) l).Target
        = l.Target := by
    intro al
    induction al.attrs with
    | nil => intro l; rfl
    | cons a rest ih => intro l; rw [List.foldl_cons, ih, hstep]
  rcases attrs with _ | al <;> simp [hfold, hfold2]

theorem addLinkChecked_step (c : Converter) (s t : String)
    (attrs : Option AttrList) : ConvStep c (addLinkChecked c s t attrs) := by
  unfold addLinkChecked
  split
  · exact ConvStep.refl c
  · rename_i hdrop
    refine ⟨rfl, rfl, by simp, List.prefix_rfl, fun h hstrict => ?_⟩
    simp only at hstrict
    unfold NoDupLinks
    dsimp only
    rw [List.pairwise_append]
    refine ⟨h hstrict, List.pairwise_singleton _ _, ?_⟩
    intro l hl l' hl'
    rw [List.mem_singleton] at hl'
    subst hl'
    rw [buildLink_source, buildLink_target]
    by_cases hm : linkMatches c.directed l s t
    · exfalso
      exact hdrop ⟨hstrict, List.any_eq_true.mpr ⟨l, hl, hm⟩⟩
    · simpa using hm

theorem addLinksAll_step (c : Converter) (lefts rights : List String)
    (attrs : Option AttrList) : ConvStep c (addLinksAll c lefts rights attrs) := by
  unfold addLinksAll
  apply ConvStep.foldl
    (fun c l => rights.foldl (fun c r => addLinkChecked c l r attrs) c)
  intro c' x
  exact ConvStep.foldl (fun c r => addLinkChecked c x r attrs)
    (fun c' r => addLinkChecked_step c' x r attrs) rights c'

/-- Every function of the edge-processing cluster only extends the state in
the `ConvStep` sense. -/
theorem processEdgeStmt_step (c : Converter) (left : EdgeEndpoint)
    (rights : List (Bool × EdgeEndpoint)) (attrs : Option AttrList)
    (sg : String) : ConvStep c (processEdgeStmt c left rights attrs sg) := by
  refine processEdgeStmt.induct
    (fun c rights sg => ConvStep c (collectEndpointsRights c rights sg).1)
    (fun c ep sg => ConvStep c (collectEndpoints c ep sg).1)
    (fun c stmts sg => ConvStep c (processSubgraphNodes c stmts sg).1)
    (fun c s sg => ConvStep c (processSubgraphNodeStmt c s sg).1)
    (fun c left rights attrs sg =>
      ConvStep c (processEdgeStmt c left rights attrs sg))
    (fun c eps rights attrs sg =>
      ConvStep c (processEdgeRights c eps rights attrs sg))
    ?_ ?_ ?_ ?_ ?_ ?_ ?_ ?_ ?_ ?_ ?_ ?_ ?_ ?_ c left rights attrs sg
  · intro c sg
    rw [collectEndpointsRights]
    exact ConvStep.refl c
  · intro c sg b ep rest p ih2 ih1
    rw [collectEndpointsRights]
    exact ih2.trans ih1
  · intro c sg n
    rw [collectEndpoints]
    exact ensureNode_step c n.id.name sg
  · intro c sg nodes
    rw [collectEndpoints]
    exact ConvStep.foldl _ (fun c n => ensureNode_step c n.id.name sg) nodes c
  · intro c sg id stmts sgID ih3
    rw [collectEndpoints]
    exact ih3
  · intro c sg
    rw [processSubgraphNodes]
    exact ConvStep.refl c
  · intro c sg s rest p ih4 ih_rest
    rw [processSubgraphNodes]
    exact ih4.trans ih_rest
  · intro c sg nid attrs
    rw [processSubgraphNodeStmt]
    exact ensureNode_step c nid.id.name sg
  · intro c sg left rights attrs c1 p1 ih5 ihc1 ihc1x ih1
    rw [processSubgraphNodeStmt]
    exact ((ih5.trans ihc1).trans ih1)
  · intro c sg id stmts2 ih3
    rw [processSubgraphNodeStmt]
    exact ih3
  · intro c s sg h1 h2 h3
    cases s with
    | node nid attrs => exact absurd rfl (h1 nid attrs)
    | edge left rights attrs => exact absurd rfl (h2 left rights attrs)
    | subgraph id stmts2 => exact absurd rfl (h3 id stmts2)
    | attr kind attrs =>
      rw [processSubgraphNodeStmt]
      · exact ConvStep.refl c
      all_goals simp
    | assign k v =>
      rw [processSubgraphNodeStmt]
      · exact ConvStep.refl c
      all_goals simp
  · intro c left rights attrs sg p ih2 ih6
    rw [processEdgeStmt]
    exact ih2.trans ih6
  · intro c eps attrs sg
    rw [processEdgeRights]
    exact ConvStep.refl c
  · intro c eps attrs sg b ep rest p cq ih2 ih6
    rw [processEdgeRights]
    exact (ih2.trans (addLinksAll_step _ _ _ _)).trans ih6

/-- `collectEndpoints` only extends the state in the `ConvStep` sense. -/
theorem collectEndpoints_step (c : Converter) (ep : EdgeEndpoint) (sg : String) :
    ConvStep c (collectEndpoints c ep sg).1 := by
  refine collectEndpoints.induct
    (fun c rights sg => ConvStep c (collectEndpointsRights c rights sg).1)
    (fun c ep sg => ConvStep c (collectEndpoints c ep sg).1)
    (fun c stmts sg => ConvStep c (processSubgraphNodes c stmts sg).1)
    (fun c s sg => ConvStep c (processSubgraphNodeStmt c s sg).1)
    (fun c left rights attrs sg =>
      ConvStep c (processEdgeStmt c left rights attrs sg))
    (fun c eps rights attrs sg =>
      ConvStep c (processEdgeRights c eps rights attrs sg))
    ?_ ?_ ?_ ?_ ?_ ?_ ?_ ?_ ?_ ?_ ?_ ?_ ?_ ?_ c ep sg
  · intro c sg
    rw [collectEndpointsRights]
    exact ConvStep.refl c
  · intro c sg b ep rest p ih2 ih1
    rw [collectEndpointsRights]
    exact ih2.trans ih1
  · intro c sg n
    rw [collectEndpoints]
    exact ensureNode_step c n.id.name sg
  · intro c sg nodes
    rw [collectEndpoints]
    exact ConvStep.foldl _ (fun c n => ensureNode_step c n.id.name sg) nodes c
  · intro c sg id stmts sgID ih3
    rw [collectEndpoints]
    exact ih3
  · intro c sg
    rw [processSubgraphNodes]
    exact ConvStep.refl c
  · intro c sg s rest p ih4 ih_rest
    rw [processSubgraphNodes]
    exact ih4.trans ih_rest
  · intro c sg nid attrs
    rw [processSubgraphNodeStmt]
    exact ensureNode_step c nid.id.name sg
  · intro c sg left rights attrs c1 p1 ih5 ihc1 ihc1x ih1
    rw [processSubgraphNodeStmt]
    exact ((ih5.trans ihc1).trans ih1)
  · intro c sg id stmts2 ih3
    rw [processSubgraphNodeStmt]
    exact ih3
  · intro c s sg h1 h2 h3
    cases s with
    | node nid attrs => exact absurd rfl (h1 nid attrs)
    | edge left rights attrs => exact absurd rfl (h2 left rights attrs)
    | subgraph id stmts2 => exact absurd rfl (h3 id stmts2)
    | attr kind attrs =>
      rw [processSubgraphNodeStmt]
      · exact ConvStep.refl c
      all_goals simp
    | assign k v =>
      rw [processSubgraphNodeStmt]
      · exact ConvStep.refl c
      all_goals simp
  · intro c left rights attrs sg p ih2 ih6
    rw [processEdgeStmt]
    exact ih2.trans ih6
  · intro c eps attrs sg
    rw [processEdgeRights]
    exact ConvStep.refl c
  · intro c eps attrs sg b ep rest p cq ih2 ih6
    rw [processEdgeRights]
    exact (ih2.trans (addLinksAll_step _ _ _ _)).trans ih6

/-- `collectEndpointsRights` only extends the state in the `ConvStep` sense. -/
theorem collectEndpointsRights_step (c : Converter)
    (rights : List (Bool × EdgeEndpoint)) (sg : String) :
    ConvStep c (collectEndpointsRights c rights sg).1 := by
  refine collectEndpointsRights.induct
    (fun c rights sg => ConvStep c (collectEndpointsRights c rights sg).1)
    (fun c ep sg => ConvStep c (collectEndpoints c ep sg).1)
    (fun c stmts sg => ConvStep c (processSubgraphNodes c stmts sg).1)
    (fun c s sg => ConvStep c (processSubgraphNodeStmt c s sg).1)
    (fun c left rights attrs sg =>
      ConvStep c (processEdgeStmt c left rights attrs sg))
    (fun c eps rights attrs sg =>
      ConvStep c (processEdgeRights c eps rights attrs sg))
    ?_ ?_ ?_ ?_ ?_ ?_ ?_ ?_ ?_ ?_ ?_ ?_ ?_ ?_ c rights sg
  · intro c sg
    rw [collectEndpointsRights]
    exact ConvStep.refl c
  · intro c sg b ep rest p ih2 ih1
    rw [collectEndpointsRights]
    exact ih2.trans ih1
  · intro c sg n
    rw [collectEndpoints]
    exact ensureNode_step c n.id.name sg
  · intro c sg nodes
    rw [collectEndpoints]
    exact ConvStep.foldl _ (fun c n => ensureNode_step c n.id.name sg) nodes c
  · intro c sg id stmts sgID ih3
    rw [collectEndpoints]
    exact ih3
  · intro c sg
    rw [processSubgraphNodes]
    exact ConvStep.refl c
  · intro c sg s rest p ih4 ih_rest
    rw [processSubgraphNodes]
    exact ih4.trans ih_rest
  · intro c sg nid attrs
    rw [processSubgraphNodeStmt]
    exact ensureNode_step c nid.id.name sg
  · intro c sg left rights attrs c1 p1 ih5 ihc1 ihc1x ih1
    rw [processSubgraphNodeStmt]
    exact ((ih5.trans ihc1).trans ih1)
  · intro c sg id stmts2 ih3
    rw [processSubgraphNodeStmt]
    exact ih3
  · intro c s sg h1 h2 h3
    cases s with
    | node nid attrs => exact absurd rfl (h1 nid attrs)
    | edge left rights attrs => exact absurd rfl (h2 left rights attrs)
    | subgraph id stmts2 => exact absurd rfl (h3 id stmts2)
    | attr kind attrs =>
      rw [processSubgraphNodeStmt]
      · exact ConvStep.refl c
      all_goals simp
    | assign k v =>
      rw [processSubgraphNodeStmt]
      · exact ConvStep.refl c
      all_goals simp
  · intro c left rights attrs sg p ih2 ih6
    rw [processEdgeStmt]
    exact ih2.trans ih6
  · intro c eps attrs sg
    rw [processEdgeRights]
    exact ConvStep.refl c
  · intro c eps attrs sg b ep rest p cq ih2 ih6
    rw [processEdgeRights]
    exact (ih2.trans (addLinksAll_step _ _ _ _)).trans ih6

/-- `processStatement` and the subgraph-processing functions only extend the
state in the `ConvStep` sense (the subgraph record appended by
`processSubgraph` lives outside the `ConvStep`-tracked fields). -/
theorem processStatement_step (c : Converter) (s : Stmt) (sg : String) :
    ConvStep c (processStatement c s sg) := by
  refine processStatement.induct
    (fun c s sg => ConvStep c (processStatement c s sg))
    (fun c id stmts => ConvStep c (processSubgraph c id stmts))
    (fun c stmts sgID => ConvStep c (processSubgraphCollect c stmts sgID).1)
    (fun c s sgID => ConvStep c (processSubgraphCollectStmt c s sgID).1)
    ?_ ?_ ?_ ?_ ?_ ?_ ?_ ?_ ?_ ?_ ?_ ?_ c s sg
  · intro c sg nid attrs
    rw [processStatement]
    exact processNodeStmt_step c nid attrs sg
  · intro c sg left rights attrs
    rw [processStatement]
    exact processEdgeStmt_step c left rights attrs sg
  · intro c sg kind attrs
    rw [processStatement]
    exact processAttrStmt_step c kind attrs
  · intro c sg key value
    rw [processStatement]
    exact ConvStep.refl c
  · intro c sg id stmts ih2
    rw [processStatement]
    exact ih2
  · intro c id stmts sgID h ih3
    rw [processSubgraph]
    dsimp only
    split
    · exact ih3.trans ⟨rfl, rfl, List.prefix_rfl, List.prefix_rfl, fun h => h⟩
    · exact ih3
  · intro c id stmts sgID h ih3
    rw [processSubgraph]
    dsimp only
    split
    · exact ih3.trans ⟨rfl, rfl, List.prefix_rfl, List.prefix_rfl, fun h => h⟩
    · exact ih3
  · intro c sgID
    rw [processSubgraphCollect]
    exact ConvStep.refl c
  · intro c sgID s rest p ih4 ih3
    rw [processSubgraphCollect]
    exact ih4.trans ih3
  · intro c sgID nid attrs ih1
    rw [processSubgraphCollectStmt]
    exact ih1
  · intro c sgID left rights attrs ih1
    rw [processSubgraphCollectStmt]
    exact (ih1.trans (collectEndpoints_step _ left sgID)).trans
      (collectEndpointsRights_step _ rights sgID)
  · intro c s sgID h1 h2 ih1
    cases s with
    | node nid attrs => exact absurd rfl (h1 nid attrs)
    | edge left rights attrs => exact absurd rfl (h2 left rights attrs)
    | subgraph id stmts2 =>
      rw [processSubgraphCollectStmt]
      · exact ih1
      all_goals simp
    | attr kind attrs =>
      rw [processSubgraphCollectStmt]
      · exact ih1
      all_goals simp
    | assign k v =>
      rw [processSubgraphCollectStmt]
      · exact ih1
      all_goals simp

/-- `processStatements` only extends the state in the `ConvStep` sense. -/
theorem processStatements_step (c : Converter) (stmts : List Stmt) (sg : String) :
    ConvStep c (processStatements c stmts sg) := by
  refine processStatements.induct
    (fun c stmts sg => ConvStep c (processStatements c stmts sg)) ?_ ?_ c stmts sg
  · intro c sg
    rw [processStatements]
    exact ConvStep.refl c
  · intro c sg s rest ih
    rw [processStatements]
    exact (processStatement_step c s sg).trans ih

/-! ## C3: strict-mode link dedup -/

/-- The AST of `strict digraph { A -> B; A -> B }`. -/
def gC3 : ASTGraph :=
  { strict := true, directed := true, id := none,
    statements := [
      .edge (.node (nd "A")) [(true, .node (nd "B"))] none,
      .edge (.node (nd "A")) [(true, .node (nd "B"))] none] }

/-- A strict, directed converter state holding one stored link A→B. -/
def cW3 : Converter :=
  { nodes := [], links := [{ Source := "A", Target := "B" }], subgraphs := [],
    directed := true, strict := true, graphID := "", nodeDefaults := [],
    edgeDefaults := [] }

/-- C3: under a strict graph a would-be link is dropped exactly when an
equivalent link already exists — same (source, target) pair, or for undirected
graphs the reversed pair; as a global consequence the link list of a strict
conversion never holds two equivalent links, and converting
`strict digraph { A -> B; A -> B }` yields exactly one link A→B. -/
theorem c3_strict_dedup :
    (∀ (g : ASTGraph), g.strict = true →
      NoDupLinks (runConvert g).directed (runConvert g).links)
    ∧
    (∀ (c : Converter) (s t : String) (attrs : Option AttrList),
      c.strict = true →
        ((∃ l ∈ c.links, (l.Source = s ∧ l.Target = t) ∨
            (c.directed = false ∧ l.Source = t ∧ l.Target = s)) →
          addLinkChecked c s t attrs = c)
        ∧
        ((¬ ∃ l ∈ c.links, (l.Source = s ∧ l.Target = t) ∨
            (c.directed = false ∧ l.Source = t ∧ l.Target = s)) →
          (addLinkChecked c s t attrs).links = c.links ++ [buildLink c s t attrs]))
    ∧
    (runConvert gC3).links.map (fun l => (l.Source, l.Target)) = [("A", "B")] := by
  refine ⟨?_, ?_, ?_⟩
  · intro g hstrict
    have h := processStatements_step
      { nodes := [], links := [], subgraphs := [], directed := g.directed,
        strict := g.strict, graphID := (g.id.map Ident.name).getD "",
        nodeDefaults := [], edgeDefaults := [] } g.statements ""
    obtain ⟨hd, hs, hl, hn, hp⟩ := h
    exact hp (fun _ => List.Pairwise.nil) (by rw [hs]; exact hstrict)
  · intro c s t attrs hstrict
    constructor
    · rintro ⟨l, hl, hm⟩
      have hex : linkExists c s t = true := by
        unfold linkExists
        rw [List.any_eq_true]
        refine ⟨l, hl, ?_⟩
        simpa [linkMatches, Bool.not_eq_true] using hm
      unfold addLinkChecked
      rw [if_pos ⟨hstrict, hex⟩]
    · intro hnot
      have hex : ¬ (linkExists c s t = true) := by
        intro hx
        apply hnot
        rw [linkExists, List.any_eq_true] at hx
        obtain ⟨l, hl, hm⟩ := hx
        refine ⟨l, hl, ?_⟩
        simpa [linkMatches, Bool.not_eq_true] using hm
      unfold addLinkChecked
      rw [if_neg (fun hc => hex hc.2)]
  · simp [gC3, runConvert, processStatements, processStatement, processEdgeStmt,
      processEdgeRights, collectEndpoints, collectEndpointsRights, ensureNode,
      getOrCreateNode, updateNode, findNode, applyNodeAttr, applyCondDefault,
      addLinksAll, addLinkChecked, buildLink, linkExists, linkMatches,
      applyLinkAttr, mapInsert, mapGet, nm, nd]

/-- Witness for `c3_strict_dedup`: the strict invariant holds of the converted
`strict digraph { A -> B; A -> B }`; with link A→B stored, adding A→B
again is a no-op while adding B→C appends the built link. -/
theorem c3_strict_dedup_witness :
    NoDupLinks (runConvert gC3).directed (runConvert gC3).links
    ∧ addLinkChecked cW3 "A" "B" none = cW3
    ∧ (addLinkChecked cW3 "B" "C" none).links
        = cW3.links ++ [buildLink cW3 "B" "C" none] := by
  refine ⟨c3_strict_dedup.1 gC3 rfl,
    (c3_strict_dedup.2.1 cW3 "A" "B" none rfl).1
      ⟨{ Source := "A", Target := "B" }, List.Mem.head _, Or.inl ⟨rfl, rfl⟩⟩,
    (c3_strict_dedup.2.1 cW3 "B" "C" none rfl).2 ?_⟩
  rintro ⟨l, hl, hm⟩
  have hl' : l = { Source := "A", Target := "B" } := by
    simpa [cW3] using hl
  subst hl'
  rcases hm with ⟨h1, h2⟩ | ⟨h1, h2, h3⟩
  · exact absurd h2 (by simp [cW3])
  · exact absurd h1 (by simp [cW3])

/-! ## C7: creation order and removal -/

/-- The AST of `digraph { A -> B }`. -/
def gC7 : ASTGraph :=
  { strict := false, directed := true, id := none,
    statements := [.edge (.node (nd "A")) [(true, .node (nd "B"))] none] }

/-- Counterexample to C7: `Convert` assembles the node slice by ranging over
the Go map `c.nodes`, whose iteration order is unspecified, so an admissible
output of converting `digraph \x7b A -> B \x7d` lists the nodes as B, A —
not in first-reference order. -/
theorem c7_counterexample_node_order :
    ∃ out : DGraph, ConvertOutcome gC7 out ∧
      out.Nodes.map Node.ID ≠ (convertNodes (runConvert gC7)).map Node.ID := by
  refine ⟨{ convertCanonical gC7 with
      Nodes := (convertNodes (runConvert gC7)).reverse },
    ⟨List.reverse_perm _, rfl, rfl, rfl, rfl, rfl⟩, ?_⟩
  have h1 : (convertNodes (runConvert gC7)).map Node.ID = ["A", "B"] := by
    simp [gC7, convertNodes, runConvert, processStatements, processStatement,
      processEdgeStmt, processEdgeRights, collectEndpoints,
      collectEndpointsRights, ensureNode, getOrCreateNode, updateNode, findNode,
      applyNodeAttr, applyCondDefault, addLinksAll, addLinkChecked, buildLink,
      linkExists, linkMatches, applyLinkAttr, mapInsert, mapGet, nm, nd]
  dsimp only
  rw [List.map_reverse, h1]
  decide

/-- C7, amended.  The links list and the stored node keys do grow in
first-creation order and no link or node is ever removed: every converter
state's links and node keys are a prefix of every later state's.  The *node
slice* of the returned graph model, however, is assembled by ranging over a Go
map, so its order is an arbitrary permutation of the first-creation order, not
necessarily the first-reference order itself. -/
theorem c7_amended_creation_order :
    (∀ (c : Converter) (stmts : List Stmt) (sg : String),
      c.links <+: (processStatements c stmts sg).links ∧
      (c.nodes.map Prod.fst) <+: ((processStatements c stmts sg).nodes.map Prod.fst))
    ∧
    (∀ (g : ASTGraph) (out : DGraph), ConvertOutcome g out →
      out.Links = (runConvert g).links ∧
      out.Nodes.Perm (convertNodes (runConvert g))) := by
  constructor
  · intro c stmts sg
    obtain ⟨hd, hs, hl, hn, hp⟩ := processStatements_step c stmts sg
    exact ⟨hl, hn⟩
  · intro g out h
    exact ⟨h.2.1, h.1⟩

/-- Witness for `c7_amended_creation_order`: the canonical outcome of
converting `digraph \x7b A -> B \x7d` keeps the stored links and a
permutation of the stored nodes. -/
theorem c7_amended_creation_order_witness :
    (convertCanonical gC7).Links = (runConvert gC7).links ∧
    (convertCanonical gC7).Nodes.Perm (convertNodes (runConvert gC7)) :=
  c7_amended_creation_order.2 gC7 (convertCanonical gC7)
    ⟨List.Perm.refl _, rfl, rfl, rfl, rfl, rfl⟩

/-! ## C8: subgraph record membership -/

mutual

/-- The ids an edge endpoint contributes, read off the syntax alone. -/
def endpointIds : EdgeEndpoint → List String
  | .node n => [n.id.name]
  | .group nodes => nodes.map (fun n => n.id.name)
  | .subgraph _ stmts => subgraphNodeIds stmts
termination_by ep => 3 * sizeOf ep

/-- The ids a right-hand chain contributes. -/
def rightsIds : List (Bool × EdgeEndpoint) → List String
  | [] => []
  | (_, ep) :: rest => endpointIds ep ++ rightsIds rest
termination_by rights => 3 * sizeOf rights

/-- The ids a subgraph-as-endpoint's statements contribute. -/
def subgraphNodeIds : List Stmt → List String
  | [] => []
  | s :: rest => subgraphNodeStmtIds s ++ subgraphNodeIds rest
termination_by stmts => 3 * sizeOf stmts

/-- The ids one statement of a subgraph-as-endpoint contributes. -/
def subgraphNodeStmtIds : Stmt → List String
  | .node nid _ => [nid.id.name]
  | .edge left rights _ => endpointIds left ++ rightsIds rights
  | .subgraph _ stmts2 => subgraphNodeIds stmts2
  | _ => []
termination_by s => 3 * sizeOf s

end

/-- The ids one statement of a subgraph body contributes to its record: node
statements and edge endpoints; nested subgraph statements contribute none. -/
def touchedStmtIds : Stmt → List String
  | .node nid _ => [nid.id.name]
  | .edge left rights _ => endpointIds left ++ rightsIds rights
  | _ => []

/-- The ids a subgraph body's statements contribute to its record, in touch
order, duplicates kept. -/
def collectTouchedIds : List Stmt → List String
  | [] => []
  | s :: rest => touchedStmtIds s ++ collectTouchedIds rest

/-- The id component of `collectEndpoints` is the syntactic id list — it does
not depend on the converter state. -/
theorem collectEndpoints_ids (c : Converter) (ep : EdgeEndpoint) (sg : String) :
    (collectEndpoints c ep sg).2 = endpointIds ep := by
  refine collectEndpoints.induct
    (fun c rights sg => (collectEndpointsRights c rights sg).2 = rightsIds rights)
    (fun c ep sg => (collectEndpoints c ep sg).2 = endpointIds ep)
    (fun c stmts sg => (processSubgraphNodes c stmts sg).2 = subgraphNodeIds stmts)
    (fun c s sg => (processSubgraphNodeStmt c s sg).2 = subgraphNodeStmtIds s)
    (fun c left rights attrs sg => True)
    (fun c eps rights attrs sg => True)
    ?_ ?_ ?_ ?_ ?_ ?_ ?_ ?_ ?_ ?_ ?_ ?_ ?_ ?_ c ep sg
  · intro c sg
    rw [collectEndpointsRights, rightsIds]
  · intro c sg b ep rest p ih2 ih1
    rw [collectEndpointsRights, rightsIds, ih2, ih1]
  · intro c sg n
    rw [collectEndpoints, endpointIds]
  · intro c sg nodes
    rw [collectEndpoints, endpointIds]
  · intro c sg id stmts sgID ih3
    rw [collectEndpoints, endpointIds]
    exact ih3
  · intro c sg
    rw [processSubgraphNodes, subgraphNodeIds]
  · intro c sg s rest p ih4 ih_rest
    rw [processSubgraphNodes, subgraphNodeIds, ih4, ih_rest]
  · intro c sg nid attrs
    rw [processSubgraphNodeStmt, subgraphNodeStmtIds]
  · intro c sg left rights attrs c1 p1 ih5 ihc1 ihc1x ih1
    rw [processSubgraphNodeStmt, subgraphNodeStmtIds, ihc1x, ih1]
  · intro c sg id stmts2 ih3
    rw [processSubgraphNodeStmt, subgraphNodeStmtIds]
    exact ih3
  · intro c s sg h1 h2 h3
    cases s with
    | node nid attrs => exact absurd rfl (h1 nid attrs)
    | edge left rights attrs => exact absurd rfl (h2 left rights attrs)
    | subgraph id stmts2 => exact absurd rfl (h3 id stmts2)
    | attr kind attrs =>
      simp [processSubgraphNodeStmt, subgraphNodeStmtIds]
    | assign k v =>
      simp [processSubgraphNodeStmt, subgraphNodeStmtIds]
  · intro c left rights attrs sg p ih2 ih6
    trivial
  · intro c eps attrs sg
    trivial
  · intro c eps attrs sg b ep rest p cq ih2 ih6
    trivial

/-- The id component of `collectEndpointsRights` is the syntactic id list. -/
theorem collectEndpointsRights_ids (c : Converter)
    (rights : List (Bool × EdgeEndpoint)) (sg : String) :
    (collectEndpointsRights c rights sg).2 = rightsIds rights := by
  induction rights generalizing c with
  | nil => rw [collectEndpointsRights, rightsIds]
  | cons r rest ih =>
    obtain ⟨b, ep⟩ := r
    rw [collectEndpointsRights, rightsIds]
    dsimp only
    rw [collectEndpoints_ids, ih]

/-- The id component of `processSubgraphCollectStmt` is the syntactic id
list. -/
theorem processSubgraphCollectStmt_ids (c : Converter) (s : Stmt)
    (sgID : String) :
    (processSubgraphCollectStmt c s sgID).2 = touchedStmtIds s := by
  cases s with
  | node nid attrs =>
    rw [processSubgraphCollectStmt, touchedStmtIds]
  | edge left rights attrs =>
    rw [processSubgraphCollectStmt, touchedStmtIds]
    dsimp only
    rw [collectEndpoints_ids, collectEndpointsRights_ids]
  | subgraph id stmts2 =>
    simp [processSubgraphCollectStmt, touchedStmtIds]
  | attr kind attrs =>
    simp [processSubgraphCollectStmt, touchedStmtIds]
  | assign k v =>
    simp [processSubgraphCollectStmt, touchedStmtIds]

/-- The id component of `processSubgraphCollect` is the syntactic id list. -/
theorem processSubgraphCollect_ids (c : Converter) (stmts : List Stmt)
    (sgID : String) :
    (processSubgraphCollect c stmts sgID).2 = collectTouchedIds stmts := by
  induction stmts generalizing c with
  | nil => rw [processSubgraphCollect, collectTouchedIds]
  | cons s rest ih =>
    rw [processSubgraphCollect, collectTouchedIds]
    dsimp only
    rw [processSubgraphCollectStmt_ids, ih]

/-- The record builder only fills `Label`/`Color`/`Style`; the id and the
member list are stored as given. -/
theorem subgraphRecordOf_id_nodes (sgID : String) (stmts : List Stmt)
    (ids : List String) :
    (subgraphRecordOf sgID stmts ids).ID = sgID ∧
    (subgraphRecordOf sgID stmts ids).Nodes = ids := by
  rw [subgraphRecordOf]
  have h : ∀ (l : List Stmt) (sub : SubgraphRec),
      (l.foldl (fun sub s =>
        match s with
        | .assign k v =>
          if k.name = "label" then { sub with Label := v.name }
          else if k.name = "color" then { sub with Color := v.name }
          else if k.name = "style" then { sub with Style := v.name }
          else sub
        | _ => sub) sub).ID = sub.ID ∧
      (l.foldl (fun sub s =>
        match s with
        | .assign k v =>
          if k.name = "label" then { sub with Label := v.name }
          else if k.name = "color" then { sub with Color := v.name }
          else if k.name = "style" then { sub with Style := v.name }
          else sub
        | _ => sub) sub).Nodes = sub.Nodes := by
    intro l
    induction l with
    | nil => intro sub; exact ⟨rfl, rfl⟩
    | cons s rest ih =>
      intro sub
      rw [List.foldl_cons]
      refine ⟨?_, ?_⟩ <;>
        cases s <;>
          first
          | exact (ih _).1
          | exact (ih _).2
          | (rename_i k v
             rcases (ih (if k.name = "label" then { sub with Label := v.name }
               else if k.name = "color" then { sub with Color := v.name }
               else if k.name = "style" then { sub with Style := v.name }
               else sub)) with ⟨h1, h2⟩
             first
             | (rw [h1]; split_ifs <;> rfl)
             | (rw [h2]; split_ifs <;> rfl))
  exact h stmts _

/-- The AST of `digraph \x7b subgraph s \x7b A; A \x7d \x7d`. -/
def gC8 : ASTGraph :=
  { strict := false, directed := true, id := none,
    statements := [.subgraph (some (nm "s"))
      [.node (nd "A") none, .node (nd "A") none]] }

/-- Counterexample to C8: in `digraph \x7b subgraph s \x7b A; A \x7d \x7d`
the registered record's member list is `["A", "A"]` — the id of the twice
declared node appears twice, so duplicates are *not* removed. -/
theorem c8_counterexample_duplicate_ids :
    (runConvert gC8).subgraphs.map SubgraphRec.Nodes = [["A", "A"]] ∧
    ∃ sub ∈ (runConvert gC8).subgraphs, ¬ sub.Nodes.Nodup := by
  have h : (runConvert gC8).subgraphs
      = [{ ID := "s", Label := "", Color := "", Style := "",
           Nodes := ["A", "A"] }] := by
    simp [gC8, runConvert, processStatements, processStatement, processSubgraph,
      processSubgraphCollect, processSubgraphCollectStmt, subgraphRecordOf,
      processNodeStmt, getOrCreateNode, updateNode, findNode, applyNodeAttr,
      mapInsert, mapGet, nm, nd]
  rw [h]
  refine ⟨rfl, ⟨_, List.Mem.head _, ?_⟩⟩
  decide

/-- C8, amended.  For a subgraph statement with a nonempty identifier the
converter registers, after processing the body, exactly one record whose id is
the subgraph's and whose member list is the syntactic list of ids touched
inside the body — node statements and edge endpoints, in touch order, with
*duplicates kept* (an id declared and also referenced by an edge, or repeated,
appears once per touch).  The collected member list depends only on the body's
syntax, never on the converter state. -/
theorem c8_amended_subgraph_record :
    (∀ (c : Converter) (id : Ident) (stmts : List Stmt), id.name ≠ "" →
      (processSubgraph c (some id) stmts).subgraphs
        = (processSubgraphCollect c stmts id.name).1.subgraphs
          ++ [subgraphRecordOf id.name stmts (collectTouchedIds stmts)])
    ∧
    (∀ (sgID : String) (stmts : List Stmt) (ids : List String),
      (subgraphRecordOf sgID stmts ids).ID = sgID ∧
      (subgraphRecordOf sgID stmts ids).Nodes = ids) := by
  constructor
  · intro c id stmts h
    rw [processSubgraph]
    simp only [Option.map_some', Option.getD_some]
    rw [if_pos h]
    dsimp only
    rw [processSubgraphCollect_ids]
  · exact subgraphRecordOf_id_nodes

/-- Witness for `c8_amended_subgraph_record`: the record registered for
`subgraph s \x7b A; A \x7d` from the empty converter state lists A twice. -/
theorem c8_amended_subgraph_record_witness :
    (processSubgraph cInitC6 (some (nm "s"))
        [.node (nd "A") none, .node (nd "A") none]).subgraphs
      = (processSubgraphCollect cInitC6
          [.node (nd "A") none, .node (nd "A") none] (nm "s").name).1.subgraphs
        ++ [subgraphRecordOf (nm "s").name
              [.node (nd "A") none, .node (nd "A") none]
              (collectTouchedIds [.node (nd "A") none, .node (nd "A") none])]
    ∧ (subgraphRecordOf "s" [.node (nd "A") none] ["A", "A"]).Nodes
        = ["A", "A"] :=
  ⟨c8_amended_subgraph_record.1 cInitC6 (nm "s")
      [.node (nd "A") none, .node (nd "A") none] (by decide),
   (c8_amended_subgraph_record.2 "s" [.node (nd "A") none] ["A", "A"]).2⟩

/-! ## C4: edge-chain expansion -/

/-- The link built for a pair, as a function of the edge defaults alone
(`buildLink` reads nothing else of the converter). -/
def mkLink (eds : List (String × String)) (source target : String)
    (attrs : Option AttrList) : Link :=
  let link : Link := { Source := source, Target := target }
  let link := eds.foldl (fun l kv => applyLinkAttr l kv.1 kv.2) link
  match attrs with
  | none => link
  | some al => al.attrs.foldl (fun l a => applyLinkAttr l a.key.name a.value.name) link

theorem buildLink_eq (c : Converter) (s t : String) (attrs : Option AttrList) :
    buildLink c s t attrs = mkLink c.edgeDefaults s t attrs := rfl

/-- One chain step: one link per (leftId, rightId) pair, left ids outer, right
ids inner, the statement's attribute list applied to every link. -/
def pairLinks (eds : List (String × String)) (lefts rights : List String)
    (attrs : Option AttrList) : List Link :=
  match lefts with
  | [] => []
  | l :: ls => rights.map (fun r => mkLink eds l r attrs) ++ pairLinks eds ls rights attrs

/-- A whole chain: at each step the previous step's right ids become the left
ids, and the same attribute list is applied at every step. -/
def chainLinks (eds : List (String × String)) (lefts : List String)
    (stepIds : List (List String)) (attrs : Option AttrList) : List Link :=
  match stepIds with
  | [] => []
  | ids :: rest => pairLinks eds lefts ids attrs ++ chainLinks eds ids rest attrs

/-- A simple (node or group) edge endpoint — one that cannot carry nested
statements of its own. -/
def simpleEp : EdgeEndpoint → Bool
  | .node _ => true
  | .group _ => true
  | .subgraph _ _ => false

/-- `c'` leaves the links, the edge defaults and the strict flag of `c`
untouched. -/
def EdgeFrame (c c' : Converter) : Prop :=
  c'.links = c.links ∧ c'.edgeDefaults = c.edgeDefaults ∧ c'.strict = c.strict

theorem edgeFrameRefl (c : Converter) : EdgeFrame c c := ⟨rfl, rfl, rfl⟩

theorem edgeFrameTrans {a b c : Converter} (h1 : EdgeFrame a b)
    (h2 : EdgeFrame b c) : EdgeFrame a c :=
  ⟨h2.1.trans h1.1, h2.2.1.trans h1.2.1, h2.2.2.trans h1.2.2⟩

theorem updateNode_frame (c : Converter) (id : String) (f : Node → Node) :
    EdgeFrame c (updateNode c id f) := ⟨rfl, rfl, rfl⟩

theorem getOrCreateNode_frame (c : Converter) (id : String) :
    EdgeFrame c (getOrCreateNode c id) := by
  unfold getOrCreateNode
  split
  · exact edgeFrameRefl c
  · exact ⟨rfl, rfl, rfl⟩

theorem ensureNode_frame (c : Converter) (id sg : String) :
    EdgeFrame c (ensureNode c id sg) :=
  edgeFrameTrans (getOrCreateNode_frame c id) (updateNode_frame _ _ _)

theorem collectEndpoints_frame_simple (c : Converter) (ep : EdgeEndpoint)
    (sg : String) (h : simpleEp ep = true) :
    EdgeFrame c (collectEndpoints c ep sg).1 := by
  cases ep with
  | node n =>
    rw [collectEndpoints]
    exact ensureNode_frame c n.id.name sg
  | group nodes =>
    rw [collectEndpoints]
    dsimp only
    clear h
    induction nodes generalizing c with
    | nil => exact edgeFrameRefl c
    | cons n rest ih =>
      rw [List.foldl_cons]
      exact edgeFrameTrans (ensureNode_frame c n.id.name sg) (ih _)
  | subgraph id stmts => simp [simpleEp] at h

theorem addLinkChecked_nonstrict (c : Converter) (l r : String)
    (attrs : Option AttrList) (h : c.strict = false) :
    addLinkChecked c l r attrs
      = { c with links := c.links ++ [mkLink c.edgeDefaults l r attrs] } := by
  unfold addLinkChecked
  rw [if_neg]
  · rfl
  · intro hc
    rw [h] at hc
    simp at hc

theorem foldl_addLinkChecked_nonstrict (rights : List String) :
    ∀ (c : Converter) (l : String) (attrs : Option AttrList),
    c.strict = false →
    rights.foldl (fun c r => addLinkChecked c l r attrs) c
      = { c with links := c.links
            ++ rights.map (fun r => mkLink c.edgeDefaults l r attrs) } := by
  induction rights with
  | nil =>
    intro c l attrs h
    simp
  | cons r rest ih =>
    intro c l attrs h
    rw [List.foldl_cons, addLinkChecked_nonstrict c l r attrs h,
      ih _ l attrs (by simpa using h)]
    simp

theorem addLinksAll_nonstrict (lefts : List String) :
    ∀ (c : Converter) (rights : List String) (attrs : Option AttrList),
    c.strict = false →
    addLinksAll c lefts rights attrs
      = { c with links := c.links
            ++ pairLinks c.edgeDefaults lefts rights attrs } := by
  induction lefts with
  | nil =>
    intro c rights attrs h
    rw [pairLinks]
    simp [addLinksAll]
  | cons l ls ih =>
    intro c rights attrs h
    simp only [addLinksAll] at ih ⊢
    rw [List.foldl_cons, foldl_addLinkChecked_nonstrict rights c l attrs h,
      ih _ rights attrs (by simpa using h)]
    simp [pairLinks, List.append_assoc]

theorem processEdgeRights_chain (rights : List (Bool × EdgeEndpoint)) :
    ∀ (c : Converter) (eps : List String) (attrs : Option AttrList)
      (sg : String),
    c.strict = false → rights.all (fun r => simpleEp r.2) = true →
    (processEdgeRights c eps rights attrs sg).links
      = c.links ++ chainLinks c.edgeDefaults eps
          (rights.map (fun r => endpointIds r.2)) attrs := by
  induction rights with
  | nil =>
    intro c eps attrs sg h hall
    rw [processEdgeRights, List.map_nil, chainLinks]
    simp
  | cons r rest ih =>
    obtain ⟨b, ep⟩ := r
    intro c eps attrs sg h hall
    simp only [List.all_cons, Bool.and_eq_true] at hall
    obtain ⟨h1, h2⟩ := hall
    rw [processEdgeRights]
    obtain ⟨hfl, hfe, hfs⟩ := collectEndpoints_frame_simple c ep sg h1
    have hstrict1 : (collectEndpoints c ep sg).1.strict = false := by
      rw [hfs]
      exact h
    rw [addLinksAll_nonstrict eps (collectEndpoints c ep sg).1
      (collectEndpoints c ep sg).2 attrs hstrict1]
    rw [ih _ _ attrs sg (by simpa using hstrict1) h2]
    rw [List.map_cons, chainLinks]
    simp [hfl, hfe, collectEndpoints_ids, List.append_assoc]

/-- The AST of `digraph \x7b A -> B -> C [label=x] \x7d`. -/
def gC4 : ASTGraph :=
  { strict := false, directed := true, id := none,
    statements := [.edge (.node (nd "A"))
      [(true, .node (nd "B")), (true, .node (nd "C"))]
      (some ⟨[⟨nm "label", nm "x"⟩]⟩)] }

/-- C4: in a non-strict graph, an edge statement whose endpoints are simple
(nodes or groups) appends exactly the chain's links: the right-hand id set of
each step becomes the left-hand id set of the next, one link per
(leftId, rightId) pair at every step, the statement's trailing attribute list
applied to every one of those links (`chainLinks`/`pairLinks`/`mkLink`); and
converting `digraph \x7b A -> B -> C [label=x] \x7d` yields exactly the two
links A→B and B→C, both labelled `x`. -/
theorem c4_chain_expansion :
    (∀ (c : Converter) (left : EdgeEndpoint)
        (rights : List (Bool × EdgeEndpoint)) (attrs : Option AttrList)
        (sg : String),
      c.strict = false → simpleEp left = true →
      rights.all (fun r => simpleEp r.2) = true →
      (processEdgeStmt c left rights attrs sg).links
        = c.links ++ chainLinks c.edgeDefaults (endpointIds left)
            (rights.map (fun r => endpointIds r.2)) attrs)
    ∧
    (runConvert gC4).links.map (fun l => (l.Source, l.Target, l.Label))
      = [("A", "B", "x"), ("B", "C", "x")] := by
  constructor
  · intro c left rights attrs sg h hsl hsr
    rw [processEdgeStmt]
    obtain ⟨hfl, hfe, hfs⟩ := collectEndpoints_frame_simple c left sg hsl
    rw [processEdgeRights_chain rights _ _ attrs sg (by rw [hfs]; exact h) hsr,
      hfl, hfe, collectEndpoints_ids]
  · simp [gC4, runConvert, processStatements, processStatement, processEdgeStmt,
      processEdgeRights, collectEndpoints, collectEndpointsRights, ensureNode,
      getOrCreateNode, updateNode, findNode, applyNodeAttr, applyCondDefault,
      addLinksAll, addLinkChecked, buildLink, linkExists, linkMatches,
      applyLinkAttr, mapInsert, mapGet, nm, nd]

/-- Witness for `c4_chain_expansion`: one hop A→B from the empty state appends
exactly the chain's one link. -/
theorem c4_chain_expansion_witness :
    (processEdgeStmt cInitC6 (.node (nd "A")) [(true, .node (nd "B"))]
        none "").links
      = cInitC6.links ++ chainLinks cInitC6.edgeDefaults
          (endpointIds (.node (nd "A")))
          ([((true : Bool), (.node (nd "B") : EdgeEndpoint))].map
            (fun r => endpointIds r.2)) none :=
  c4_chain_expansion.1 cInitC6 (.node (nd "A")) [(true, .node (nd "B"))]
    none "" rfl rfl (by decide)

/-! ## C5: path validation with exactly one existing endpoint -/

theorem list_set_get_self {α : Type} (l : List α) (i : Nat) (a : α)
    (h : i < l.length) : (l.set i a).get? i = some a := by
  induction l generalizing i with
  | nil => simp at h
  | cons x xs ih =>
    cases i with
    | zero => rfl
    | succ j =>
      rw [List.set_cons_succ, List.get?_cons_succ]
      exact ih j (by simpa using h)

theorem nodeMapIdx_fold (id : String) :
    ∀ (nodes : List Node) (k : Nat) (acc : Option Nat) (i : Nat),
    (nodes.foldl (fun (p : Nat × Option Nat) n =>
        (p.1 + 1, if n.ID = id then some p.1 else p.2)) (k, acc)).2 = some i →
    acc = some i ∨ ∃ m, m < nodes.length ∧ i = k + m ∧
      ∃ n, nodes.get? m = some n ∧ n.ID = id := by
  intro nodes
  induction nodes with
  | nil =>
    intro k acc i h
    exact Or.inl h
  | cons n rest ih =>
    intro k acc i h
    rw [List.foldl_cons] at h
    rcases ih (k + 1) (if n.ID = id then some k else acc) i h with
      h1 | ⟨m, hm, hi, nn, hget, hid⟩
    · by_cases hn : n.ID = id
      · rw [if_pos hn] at h1
        injection h1 with h1
        exact Or.inr ⟨0, by simp, by omega, n, rfl, hn⟩
      · rw [if_neg hn] at h1
        exact Or.inl h1
    · exact Or.inr ⟨m + 1, by simpa using Nat.succ_lt_succ hm, by omega, nn,
        by simpa using hget, hid⟩

/-- An index `nodeMapIdx` returns points at a stored node carrying the id. -/
theorem nodeMapIdx_spec (nodes : List Node) (id : String) (i : Nat)
    (h : nodeMapIdx nodes id = some i) :
    i < nodes.length ∧ ∃ n, nodes.get? i = some n ∧ n.ID = id := by
  rcases nodeMapIdx_fold id nodes 0 none i (by simpa [nodeMapIdx] using h) with
    h1 | ⟨m, hm, hi, n, hget, hid⟩
  · cases h1
  · have him : i = m := by omega
    subst him
    exact ⟨hm, n, hget, hid⟩

theorem modifyNodeAt_get (nodes : List Node) (i : Nat) (f : Node → Node)
    (n : Node) (h : nodes.get? i = some n) :
    (modifyNodeAt nodes i f).get? i = some (f n) := by
  have hlt : i < nodes.length := by
    by_contra hle
    rw [List.get?_eq_none.mpr (Nat.le_of_not_lt hle)] at h
    cases h
  unfold modifyNodeAt
  rw [h]
  exact list_set_get_self nodes i (f n) hlt

/-- The AST of `digraph \x7b A -> B \x7d`, the built graph for C5. -/
def gGraphC5 : ASTGraph :=
  { strict := false, directed := true, id := none,
    statements := [.edge (.node (nd "A")) [(true, .node (nd "B"))] none] }

/-- The AST of `digraph \x7b A -> X \x7d`, the path for C5. -/
def pathC5 : ASTGraph :=
  { strict := false, directed := true, id := none,
    statements := [.edge (.node (nd "A")) [(true, .node (nd "X"))] none] }

/-- A one-node graph model used to witness the general parts of C5. -/
def gW5 : DGraph :=
  { Nodes := [{ ID := "N" }], Links := [], Directed := true, Strict := false,
    GraphID := "", Subgraphs := [] }

/-- C5: when exactly one id of a checked (leftId, rightId) pair exists in the
built graph, that pair fails: the loop returns the failure at once (later
right ids are not examined), the existing node is marked path-invalid, the
reported invalid node is the missing id and `LastValidNode` is the existing
id.  Validating path `digraph\x7bA->X\x7d` against `digraph\x7bA->B\x7d`
returns that failure with invalid node X and LastValidNode A, marking A. -/
theorem c5_one_missing_endpoint :
    (∀ (g : DGraph) (l r : String) (ri : Nat),
      nodeMapIdx g.Nodes l = none → nodeMapIdx g.Nodes r = some ri →
      (checkPair g l r).2
          = some { Valid := false, Error := unknownNodeMsg l r l,
                   InvalidEdge := some ⟨l, r, l⟩, LastValidNode := r }
        ∧ ((checkPair g l r).1.Nodes.get? ri).map Node.PathInvalid = some true
        ∧ ∃ n, g.Nodes.get? ri = some n ∧ n.ID = r)
    ∧
    (∀ (g : DGraph) (l r : String) (li : Nat),
      nodeMapIdx g.Nodes l = some li → nodeMapIdx g.Nodes r = none →
      (checkPair g l r).2
          = some { Valid := false, Error := unknownNodeMsg l r r,
                   InvalidEdge := some ⟨l, r, r⟩, LastValidNode := l }
        ∧ ((checkPair g l r).1.Nodes.get? li).map Node.PathInvalid = some true
        ∧ ∃ n, g.Nodes.get? li = some n ∧ n.ID = l)
    ∧
    (∀ (g g' : DGraph) (l r : String) (rest : List String)
        (res : PathValidationResult),
      checkPair g l r = (g', some res) →
      checkPairsRight g l (r :: rest) = (g', some res))
    ∧
    ((ApplyPathHighlighting (convertCanonical gGraphC5) pathC5).2
        = { Valid := false, Error := unknownNodeMsg "A" "X" "X",
            InvalidEdge := some ⟨"A", "X", "X"⟩, LastValidNode := "A" }
      ∧ (ApplyPathHighlighting (convertCanonical gGraphC5) pathC5).1.Nodes.map
          (fun n => (n.ID, n.PathInvalid))
        = [("A", true), ("B", false)]) := by
  refine ⟨?_, ?_, ?_, ?_⟩
  · intro g l r ri h1 h2
    obtain ⟨hlt, n, hget, hid⟩ := nodeMapIdx_spec g.Nodes r ri h2
    refine ⟨?_, ?_, n, hget, hid⟩
    · simp only [checkPair, h1, h2]
    · simp only [checkPair, h1, h2]
      rw [modifyNodeAt_get g.Nodes ri _ n hget]
      rfl
  · intro g l r li h1 h2
    obtain ⟨hlt, n, hget, hid⟩ := nodeMapIdx_spec g.Nodes l li h1
    refine ⟨?_, ?_, n, hget, hid⟩
    · simp only [checkPair, h1, h2]
    · simp only [checkPair, h1, h2]
      rw [modifyNodeAt_get g.Nodes li _ n hget]
      rfl
  · intro g g' l r rest res h
    rw [checkPairsRight, h]
  · constructor <;>
      simp [gGraphC5, pathC5, ApplyPathHighlighting, checkPathStmts, checkChain,
        checkPairs, checkPairsRight, checkPair, collectPathEndpoints,
        nodeMapIdx, findLinkIdx, modifyNodeAt, modifyLinkAt, unknownNodeMsg,
        convertCanonical, convertNodes, runConvert, processStatements,
        processStatement, processEdgeStmt, processEdgeRights, collectEndpoints,
        collectEndpointsRights, ensureNode, getOrCreateNode, updateNode,
        findNode, applyNodeAttr, applyCondDefault, addLinksAll, addLinkChecked,
        buildLink, linkExists, linkMatches, applyLinkAttr, mapInsert, mapGet,
        nm, nd]

/-- Witness for `c5_one_missing_endpoint`: in a graph holding only node N,
the pair (M, N) fails with the existing N marked, and the pair (N, M) fails
with N marked; a failing pair stops the inner loop at once. -/
theorem c5_one_missing_endpoint_witness :
    ((checkPair gW5 "M" "N").2
        = some { Valid := false, Error := unknownNodeMsg "M" "N" "M",
                 InvalidEdge := some ⟨"M", "N", "M"⟩, LastValidNode := "N" }
      ∧ ((checkPair gW5 "M" "N").1.Nodes.get? 0).map Node.PathInvalid
          = some true
      ∧ ∃ n, gW5.Nodes.get? 0 = some n ∧ n.ID = "N")
    ∧
    ((checkPair gW5 "N" "M").2
        = some { Valid := false, Error := unknownNodeMsg "N" "M" "M",
                 InvalidEdge := some ⟨"N", "M", "M"⟩, LastValidNode := "N" }
      ∧ ((checkPair gW5 "N" "M").1.Nodes.get? 0).map Node.PathInvalid
          = some true
      ∧ ∃ n, gW5.Nodes.get? 0 = some n ∧ n.ID = "N")
    ∧
    checkPairsRight gW5 "M" ["N", "Q"]
      = ((checkPair gW5 "M" "N").1, (checkPair gW5 "M" "N").2) :=
  ⟨c5_one_missing_endpoint.1 gW5 "M" "N" 0 (by decide) (by decide),
   c5_one_missing_endpoint.2.1 gW5 "N" "M" 0 (by decide) (by decide),
   c5_one_missing_endpoint.2.2.1 gW5 _ "M" "N" ["Q"] _ rfl⟩

/-! ## C10: flags set before a validation failure are kept -/

/-- Node evolution under path validation: identity and attributes unchanged,
the two flags only ever raised. -/
def NodeFlagLe (n nq : Node) : Prop :=
  (n.OnPath = true → nq.OnPath = true) ∧
  (n.PathInvalid = true → nq.PathInvalid = true)

/-- Link evolution under path validation: the flag only ever raised. -/
def LinkFlagLe (l lq : Link) : Prop := l.OnPath = true → lq.OnPath = true

/-- Graph evolution under path validation: both flag orders, entrywise. -/
def FlagsLe (g gq : DGraph) : Prop :=
  List.Forall₂ NodeFlagLe g.Nodes gq.Nodes ∧
  List.Forall₂ LinkFlagLe g.Links gq.Links

theorem forall2_refl {α : Type} {r : α → α → Prop} (hr : ∀ a, r a a) :
    ∀ l : List α, List.Forall₂ r l l := by
  intro l
  induction l with
  | nil => exact List.Forall₂.nil
  | cons x xs ih => exact List.Forall₂.cons (hr x) ih

theorem forall2_trans {α : Type} {r : α → α → Prop}
    (ht : ∀ a b c, r a b → r b c → r a c) :
    ∀ {l1 l2 l3 : List α}, List.Forall₂ r l1 l2 → List.Forall₂ r l2 l3 →
      List.Forall₂ r l1 l3 := by
  intro l1 l2 l3 h1
  induction h1 generalizing l3 with
  | nil =>
    intro h2
    cases h2
    exact List.Forall₂.nil
  | cons hab h1 ih =>
    intro h2
    cases h2 with
    | cons hbc h2 => exact List.Forall₂.cons (ht _ _ _ hab hbc) (ih h2)

theorem forall2_set {α : Type} {r : α → α → Prop} (hr : ∀ a, r a a) :
    ∀ (l : List α) (i : Nat) (a b : α), l.get? i = some a → r a b →
      List.Forall₂ r l (l.set i b) := by
  intro l
  induction l with
  | nil =>
    intro i a b h hab
    cases h
  | cons x xs ih =>
    intro i a b h hab
    cases i with
    | zero =>
      injection h with h
      subst h
      exact List.Forall₂.cons hab (forall2_refl hr xs)
    | succ j =>
      rw [List.get?_cons_succ] at h
      rw [List.set_cons_succ]
      exact List.Forall₂.cons (hr x) (ih j a b h hab)

theorem nodeFlagLe_refl (n : Node) : NodeFlagLe n n := ⟨fun h => h, fun h => h⟩

theorem nodeFlagLe_trans (a b c : Node) (h1 : NodeFlagLe a b)
    (h2 : NodeFlagLe b c) : NodeFlagLe a c :=
  ⟨fun h => h2.1 (h1.1 h), fun h => h2.2 (h1.2 h)⟩

theorem linkFlagLe_refl (l : Link) : LinkFlagLe l l := fun h => h

theorem linkFlagLe_trans (a b c : Link) (h1 : LinkFlagLe a b)
    (h2 : LinkFlagLe b c) : LinkFlagLe a c := fun h => h2 (h1 h)

theorem flagsLe_refl (g : DGraph) : FlagsLe g g :=
  ⟨forall2_refl nodeFlagLe_refl _, forall2_refl linkFlagLe_refl _⟩

theorem flagsLe_trans {a b c : DGraph} (h1 : FlagsLe a b) (h2 : FlagsLe b c) :
    FlagsLe a c :=
  ⟨forall2_trans nodeFlagLe_trans h1.1 h2.1,
   forall2_trans linkFlagLe_trans h1.2 h2.2⟩

theorem modifyNodeAt_flags (nodes : List Node) (i : Nat) (f : Node → Node)
    (hf : ∀ n, NodeFlagLe n (f n)) :
    List.Forall₂ NodeFlagLe nodes (modifyNodeAt nodes i f) := by
  unfold modifyNodeAt
  cases h : nodes.get? i with
  | none => exact forall2_refl nodeFlagLe_refl nodes
  | some n => exact forall2_set nodeFlagLe_refl nodes i n (f n) h (hf n)

theorem modifyLinkAt_flags (links : List Link) (i : Nat) (f : Link → Link)
    (hf : ∀ l, LinkFlagLe l (f l)) :
    List.Forall₂ LinkFlagLe links (modifyLinkAt links i f) := by
  unfold modifyLinkAt
  cases h : links.get? i with
  | none => exact forall2_refl linkFlagLe_refl links
  | some l => exact forall2_set linkFlagLe_refl links i l (f l) h (hf l)

theorem checkPair_flags (g : DGraph) (l r : String) :
    FlagsLe g (checkPair g l r).1 := by
  unfold checkPair
  cases h1 : nodeMapIdx g.Nodes l with
  | none =>
    cases h2 : nodeMapIdx g.Nodes r with
    | none => exact flagsLe_refl g
    | some ri =>
      refine ⟨?_, forall2_refl linkFlagLe_refl _⟩
      exact modifyNodeAt_flags g.Nodes ri _ (fun n => ⟨fun h => h, fun h => rfl⟩)
  | some li =>
    cases h2 : nodeMapIdx g.Nodes r with
    | none =>
      refine ⟨?_, forall2_refl linkFlagLe_refl _⟩
      exact modifyNodeAt_flags g.Nodes li _ (fun n => ⟨fun h => h, fun h => rfl⟩)
    | some ri =>
      dsimp only
      have hn : List.Forall₂ NodeFlagLe g.Nodes
          (modifyNodeAt (modifyNodeAt g.Nodes li
              (fun n => { n with OnPath := true })) ri
            (fun n => { n with OnPath := true })) :=
        forall2_trans nodeFlagLe_trans
          (modifyNodeAt_flags g.Nodes li
            (fun n => { n with OnPath := true })
            (fun n => ⟨fun h => rfl, fun h => h⟩))
          (modifyNodeAt_flags _ ri
            (fun n => { n with OnPath := true })
            (fun n => ⟨fun h => rfl, fun h => h⟩))
      split
      · exact ⟨hn, modifyLinkAt_flags g.Links _ _ (fun lk h => rfl)⟩
      · exact ⟨hn, forall2_refl linkFlagLe_refl _⟩

theorem checkPairsRight_flags (rightNodes : List String) :
    ∀ (g : DGraph) (l : String),
    FlagsLe g (checkPairsRight g l rightNodes).1 := by
  induction rightNodes with
  | nil =>
    intro g l
    exact flagsLe_refl g
  | cons r rest ih =>
    intro g l
    have hcp := checkPair_flags g l r
    rw [checkPairsRight]
    rcases hcm : checkPair g l r with ⟨g1, o⟩
    rw [hcm] at hcp
    cases o with
    | some res => exact hcp
    | none => exact flagsLe_trans hcp (ih g1 l)

theorem checkPairs_flags (leftNodes : List String) :
    ∀ (g : DGraph) (rightNodes : List String),
    FlagsLe g (checkPairs g leftNodes rightNodes).1 := by
  induction leftNodes with
  | nil =>
    intro g rightNodes
    exact flagsLe_refl g
  | cons l rest ih =>
    intro g rightNodes
    have hcp := checkPairsRight_flags rightNodes g l
    rw [checkPairs]
    rcases hcm : checkPairsRight g l rightNodes with ⟨g1, o⟩
    rw [hcm] at hcp
    cases o with
    | some res => exact hcp
    | none => exact flagsLe_trans hcp (ih g1 rightNodes)

theorem checkChain_flags (rights : List (Bool × EdgeEndpoint)) :
    ∀ (g : DGraph) (leftNodes : List String),
    FlagsLe g (checkChain g leftNodes rights).1 := by
  induction rights with
  | nil =>
    intro g leftNodes
    exact flagsLe_refl g
  | cons r rest ih =>
    obtain ⟨b, ep⟩ := r
    intro g leftNodes
    have hcp := checkPairs_flags leftNodes g (collectPathEndpoints ep)
    rw [checkChain]
    rcases hcm : checkPairs g leftNodes (collectPathEndpoints ep) with ⟨g1, o⟩
    rw [hcm] at hcp
    cases o with
    | some res => exact hcp
    | none => exact flagsLe_trans hcp (ih g1 _)

theorem checkPathStmts_flags (stmts : List Stmt) :
    ∀ g : DGraph, FlagsLe g (checkPathStmts g stmts).1 := by
  induction stmts with
  | nil =>
    intro g
    exact flagsLe_refl g
  | cons s rest ih =>
    intro g
    cases s with
    | edge left rights attrs =>
      rw [checkPathStmts]
      have hcp := checkChain_flags rights g (collectPathEndpoints left)
      rcases hcm : checkChain g (collectPathEndpoints left) rights with ⟨g1, o⟩
      rw [hcm] at hcp
      cases o with
      | some res => exact hcp
      | none => exact flagsLe_trans hcp (ih g1)
    | node nid attrs =>
      rw [checkPathStmts]
      · exact ih g
      all_goals simp
    | attr kind attrs =>
      rw [checkPathStmts]
      · exact ih g
      all_goals simp
    | assign k v =>
      rw [checkPathStmts]
      · exact ih g
      all_goals simp
    | subgraph id stmts2 =>
      rw [checkPathStmts]
      · exact ih g
      all_goals simp

/-- The path AST of `digraph \x7b A -> B -> X \x7d`. -/
def pathC10 : ASTGraph :=
  { strict := false, directed := true, id := none,
    statements := [.edge (.node (nd "A"))
      [(true, .node (nd "B")), (true, .node (nd "X"))] none] }

/-- C10: path validation never lowers an on-path or path-invalid flag — the
graph a failed `ApplyPathHighlighting` returns keeps every flag set before the
failing pair (no rollback).  Validating `digraph\x7bA->B->X\x7d` against
`digraph\x7bA->B\x7d` fails on (B, X), yet A and B stay marked on-path and
the link A→B stays marked, with B additionally path-invalid. -/
theorem c10_no_rollback_on_failure :
    (∀ (g : DGraph) (path : ASTGraph),
      FlagsLe g (ApplyPathHighlighting g path).1)
    ∧
    ((ApplyPathHighlighting (convertCanonical gGraphC5) pathC10).2.Valid = false
      ∧ (ApplyPathHighlighting (convertCanonical gGraphC5) pathC10).1.Nodes.map
          (fun n => (n.ID, n.OnPath, n.PathInvalid))
        = [("A", true, false), ("B", true, true)]
      ∧ (ApplyPathHighlighting (convertCanonical gGraphC5) pathC10).1.Links.map
          (fun l => (l.Source, l.Target, l.OnPath))
        = [("A", "B", true)]) := by
  constructor
  · intro g path
    have hcp := checkPathStmts_flags path.statements g
    unfold ApplyPathHighlighting
    rcases hcm : checkPathStmts g path.statements with ⟨g1, o⟩
    rw [hcm] at hcp
    cases o with
    | some res => exact hcp
    | none => exact hcp
  · refine ⟨?_, ?_, ?_⟩ <;>
      simp [gGraphC5, pathC10, ApplyPathHighlighting, checkPathStmts,
        checkChain, checkPairs, checkPairsRight, checkPair,
        collectPathEndpoints, nodeMapIdx, findLinkIdx, modifyNodeAt,
        modifyLinkAt, unknownNodeMsg, convertCanonical, convertNodes,
        runConvert, processStatements, processStatement, processEdgeStmt,
        processEdgeRights, collectEndpoints, collectEndpointsRights,
        ensureNode, getOrCreateNode, updateNode, findNode, applyNodeAttr,
        applyCondDefault, addLinksAll, addLinkChecked, buildLink, linkExists,
        linkMatches, applyLinkAttr, mapInsert, mapGet, nm, nd]

/-! ## C9: `\x7b` at statement level vs as an edge endpoint -/

theorem hB9a : (parseStmt ⟨[.identT "B", .rbrace], []⟩).val.1
    = some (.node (nd "B") none) := by
  rw [parseStmt, parseIDStmt]
  simp [parseIdent, parsePort, curTok, pnext, perr, isID, nd, nm]

theorem hB9b : (parseStmt ⟨[.identT "B", .rbrace], []⟩).val.2
    = ⟨[.rbrace], []⟩ := by
  rw [parseStmt, parseIDStmt]
  simp [parseIdent, parsePort, curTok, pnext, perr, isID, nd, nm]

theorem hA9a : (parseStmt ⟨[.identT "A", .identT "B", .rbrace], []⟩).val.1
    = some (.node (nd "A") none) := by
  rw [parseStmt, parseIDStmt]
  simp [parseIdent, parsePort, curTok, pnext, perr, isID, nd, nm]

theorem hA9b : (parseStmt ⟨[.identT "A", .identT "B", .rbrace], []⟩).val.2
    = ⟨[.identT "B", .rbrace], []⟩ := by
  rw [parseStmt, parseIDStmt]
  simp [parseIdent, parsePort, curTok, pnext, perr, isID, nd, nm]

theorem hL39a : (parseStmtList ⟨[.rbrace], []⟩).val.1 = [] := by
  rw [parseStmtList]
  simp [curTok]

theorem hL39b : (parseStmtList ⟨[.rbrace], []⟩).val.2 = ⟨[.rbrace], []⟩ := by
  rw [parseStmtList]
  simp [curTok]

theorem hLB9a : (parseStmtList ⟨[.identT "B", .rbrace], []⟩).val.1
    = [.node (nd "B") none] := by
  rw [parseStmtList]
  rw [dif_neg (by decide)]
  dsimp only
  rw [hB9b]
  rw [if_neg (by decide)]
  rw [hB9a, hL39a]

theorem hLB9b : (parseStmtList ⟨[.identT "B", .rbrace], []⟩).val.2
    = ⟨[.rbrace], []⟩ := by
  rw [parseStmtList]
  rw [dif_neg (by decide)]
  dsimp only
  rw [hB9b]
  rw [if_neg (by decide)]
  rw [hL39b]

theorem hLA9a : (parseStmtList ⟨[.identT "A", .identT "B", .rbrace], []⟩).val.1
    = [.node (nd "A") none, .node (nd "B") none] := by
  rw [parseStmtList]
  rw [dif_neg (by decide)]
  dsimp only
  rw [hA9b]
  rw [if_neg (by decide)]
  rw [hA9a, hLB9a]

theorem hLA9b : (parseStmtList ⟨[.identT "A", .identT "B", .rbrace], []⟩).val.2
    = ⟨[.rbrace], []⟩ := by
  rw [parseStmtList]
  rw [dif_neg (by decide)]
  dsimp only
  rw [hA9b]
  rw [if_neg (by decide)]
  rw [hLB9b]

theorem hSG9a : (parseSubgraph ⟨[.lbrace, .identT "A", .identT "B", .rbrace],
    []⟩).val.1 = (none, [.node (nd "A") none, .node (nd "B") none]) := by
  rw [parseSubgraph]
  simp [hLA9a, hLA9b, expectTok, curTok, pnext, perr, isID]

theorem hSG9b : (parseSubgraph ⟨[.lbrace, .identT "A", .identT "B", .rbrace],
    []⟩).val.2 = ⟨[], []⟩ := by
  rw [parseSubgraph]
  simp [hLA9a, hLA9b, expectTok, curTok, pnext, perr, isID]

theorem hNL9 : parseNodeIDList ⟨[.identT "A", .identT "B", .rbrace], []⟩ []
    = ([nd "A", nd "B"], ⟨[.rbrace], []⟩) := by
  simp [parseNodeIDList, parseNodeID, parseIdent, parsePort, curTok, pnext,
    perr, isID, expectTok, nd, nm]

/-- When `parseSubgraphOrGroup` meets `\x7b` (no `subgraph` keyword) and the
flat NodeID run ends at `\x7d` with at least one NodeID, it returns a
NodeGroup, consuming the `\x7d`. -/
theorem parseSubgraphOrGroup_group (σ : PSt) (h1 : curTok σ ≠ .subgraphT)
    (h2 : curTok (parseNodeIDList (expectTok σ .lbrace) []).2 = .rbrace)
    (h3 : (parseNodeIDList (expectTok σ .lbrace) []).1 ≠ []) :
    (parseSubgraphOrGroup σ).val
      = (.group (parseNodeIDList (expectTok σ .lbrace) []).1,
         pnext (parseNodeIDList (expectTok σ .lbrace) []).2) := by
  rw [parseSubgraphOrGroup]
  rw [dif_neg h1]
  dsimp only
  rw [dif_pos ⟨h2, h3⟩]

/-- When the flat NodeID run does not end the construct, the consumed NodeIDs
become implicit node statements and parsing continues as a full statement
list; the result is an anonymous Subgraph. -/
theorem parseSubgraphOrGroup_subgraph (σ : PSt) (h1 : curTok σ ≠ .subgraphT)
    (h2 : ¬ (curTok (parseNodeIDList (expectTok σ .lbrace) []).2 = .rbrace ∧
      (parseNodeIDList (expectTok σ .lbrace) []).1 ≠ []))
    (h3 : (parseNodeIDList (expectTok σ .lbrace) []).2.toks.length
      < σ.toks.length) :
    (parseSubgraphOrGroup σ).val
      = (.subgraph none
          (((parseNodeIDList (expectTok σ .lbrace) []).1.map
              (fun n => Stmt.node n none))
            ++ (parseStmtList (parseNodeIDList (expectTok σ .lbrace) []).2).val.1),
         expectTok
           (parseStmtList (parseNodeIDList (expectTok σ .lbrace) []).2).val.2
           .rbrace) := by
  rw [parseSubgraphOrGroup]
  rw [dif_neg h1]
  dsimp only
  rw [dif_neg h2]
  dsimp only
  rw [dif_pos h3]

/-- At *statement* level a `\x7b` never takes the NodeGroup path: `parseStmt`
hands it to `parseSubgraph`, and (absent a following edge operator) the
statement is a Subgraph. -/
theorem parseStmt_lbrace_subgraph (σ : PSt) (h1 : curTok σ = .lbrace)
    (h2 : ¬ (curTok (parseSubgraph σ).val.2 = .arrow ∨
      curTok (parseSubgraph σ).val.2 = .dashdash)) :
    (parseStmt σ).val.1
      = some (.subgraph (parseSubgraph σ).val.1.1 (parseSubgraph σ).val.1.2) := by
  rw [parseStmt]
  split
  case h_5 =>
    dsimp only
    rw [dif_neg h2]
  case h_9 => exact absurd h1 (by assumption)
  all_goals (rename_i heq; rw [h1] at heq; simp at heq)

/-- Counterexample to C9: the claimed NodeGroup disambiguation does not hold
at *every* position where `\x7b` appears without `subgraph` — at statement
level the token run `\x7b A B \x7d` parses as an anonymous Subgraph with two
node statements, while the same run as a right-hand edge endpoint
(`parseSubgraphOrGroup`) parses as a NodeGroup. -/
theorem c9_counterexample_statement_brace :
    (parseStmt ⟨[.lbrace, .identT "A", .identT "B", .rbrace], []⟩).val.1
      = some (.subgraph none [.node (nd "A") none, .node (nd "B") none])
    ∧ (parseSubgraphOrGroup
        ⟨[.lbrace, .identT "A", .identT "B", .rbrace], []⟩).val.1
      = .group [nd "A", nd "B"] := by
  constructor
  · rw [parseStmt_lbrace_subgraph _ (by decide) (by rw [hSG9b]; decide), hSG9a]
  · rw [parseSubgraphOrGroup_group _ (by decide)
      (by simp [hNL9, expectTok, curTok, pnext, perr])
      (by simp [hNL9, expectTok, curTok, pnext, perr])]
    rw [show expectTok ⟨[.lbrace, .identT "A", .identT "B", .rbrace], []⟩
        .lbrace = ⟨[.identT "A", .identT "B", .rbrace], []⟩ from by decide]
    rw [hNL9]

/-- C9, amended.  The NodeGroup disambiguation happens only where
`parseSubgraphOrGroup` is invoked — for a right-hand edge endpoint starting
with `\x7b` or `subgraph`: there, after the `\x7b` a flat run of bare
NodeIDs is parsed, the construct closing as a NodeGroup when `\x7d` follows
at least one NodeID, and otherwise continuing as a full statement list with
the consumed NodeIDs downgraded to implicit node statements, producing an
anonymous Subgraph.  A `\x7b` at *statement* level is handed to
`parseSubgraph` instead and always yields a Subgraph statement, never a
NodeGroup. -/
theorem c9_amended_brace_disambiguation :
    (∀ (σ : PSt), curTok σ ≠ .subgraphT →
      curTok (parseNodeIDList (expectTok σ .lbrace) []).2 = .rbrace →
      (parseNodeIDList (expectTok σ .lbrace) []).1 ≠ [] →
      (parseSubgraphOrGroup σ).val
        = (.group (parseNodeIDList (expectTok σ .lbrace) []).1,
           pnext (parseNodeIDList (expectTok σ .lbrace) []).2))
    ∧
    (∀ (σ : PSt), curTok σ ≠ .subgraphT →
      ¬ (curTok (parseNodeIDList (expectTok σ .lbrace) []).2 = .rbrace ∧
        (parseNodeIDList (expectTok σ .lbrace) []).1 ≠ []) →
      (parseNodeIDList (expectTok σ .lbrace) []).2.toks.length
        < σ.toks.length →
      (parseSubgraphOrGroup σ).val
        = (.subgraph none
            (((parseNodeIDList (expectTok σ .lbrace) []).1.map
                (fun n => Stmt.node n none))
              ++ (parseStmtList
                    (parseNodeIDList (expectTok σ .lbrace) []).2).val.1),
           expectTok
             (parseStmtList (parseNodeIDList (expectTok σ .lbrace) []).2).val.2
             .rbrace))
    ∧
    (∀ (σ : PSt), curTok σ = .lbrace →
      ¬ (curTok (parseSubgraph σ).val.2 = .arrow ∨
        curTok (parseSubgraph σ).val.2 = .dashdash) →
      (parseStmt σ).val.1
        = some (.subgraph (parseSubgraph σ).val.1.1
            (parseSubgraph σ).val.1.2)) :=
  ⟨parseSubgraphOrGroup_group, parseSubgraphOrGroup_subgraph,
   parseStmt_lbrace_subgraph⟩

/-- Witness for `c9_amended_brace_disambiguation`: `\x7b C \x7d` as an edge
endpoint closes as a NodeGroup; `\x7b D ; \x7d` does not (the `;` breaks the
flat run) and continues as an anonymous Subgraph; a statement-level
`\x7b A B \x7d` is a Subgraph statement. -/
theorem c9_amended_brace_disambiguation_witness :
    (parseSubgraphOrGroup ⟨[.lbrace, .identT "C", .rbrace], []⟩).val
      = (.group (parseNodeIDList
            (expectTok ⟨[.lbrace, .identT "C", .rbrace], []⟩ .lbrace) []).1,
         pnext (parseNodeIDList
            (expectTok ⟨[.lbrace, .identT "C", .rbrace], []⟩ .lbrace) []).2)
    ∧
    (parseSubgraphOrGroup ⟨[.lbrace, .identT "D", .semicolon, .rbrace],
        []⟩).val
      = (.subgraph none
          (((parseNodeIDList (expectTok ⟨[.lbrace, .identT "D", .semicolon,
                .rbrace], []⟩ .lbrace) []).1.map (fun n => Stmt.node n none))
            ++ (parseStmtList (parseNodeIDList
                  (expectTok ⟨[.lbrace, .identT "D", .semicolon, .rbrace],
                    []⟩ .lbrace) []).2).val.1),
         expectTok (parseStmtList (parseNodeIDList
              (expectTok ⟨[.lbrace, .identT "D", .semicolon, .rbrace],
                []⟩ .lbrace) []).2).val.2 .rbrace)
    ∧
    (parseStmt ⟨[.lbrace, .identT "A", .identT "B", .rbrace], []⟩).val.1
      = some (.subgraph
          (parseSubgraph ⟨[.lbrace, .identT "A", .identT "B", .rbrace],
            []⟩).val.1.1
          (parseSubgraph ⟨[.lbrace, .identT "A", .identT "B", .rbrace],
            []⟩).val.1.2) :=
  ⟨c9_amended_brace_disambiguation.1 _ (by decide)
      (by simp [parseNodeIDList, parseNodeID, parseIdent, parsePort, curTok,
        pnext, perr, isID, expectTok, nd, nm])
      (by simp [parseNodeIDList, parseNodeID, parseIdent, parsePort, curTok,
        pnext, perr, isID, expectTok, nd, nm]),
   c9_amended_brace_disambiguation.2.1 _ (by decide)
      (by simp [parseNodeIDList, parseNodeID, parseIdent, parsePort, curTok,
        pnext, perr, isID, expectTok, nd, nm])
      (by simp [parseNodeIDList, parseNodeID, parseIdent, parsePort, curTok,
        pnext, perr, isID, expectTok, nd, nm]),
   c9_amended_brace_disambiguation.2.2 _ (by decide)
      (by rw [hSG9b]; decide)⟩

end Dot2D3
